import Mathlib

/-!
# A verification development for the BMP codec, console renderer and mark overlay

Shallow embedding of `Main.cpp`.

Conventions of the embedding:

* `int` values are modelled in `Int`.  Signed overflow is undefined in C++, so the
  model describes the executions in which no `int` operation leaves the 32-bit
  range; the theorems state the ranges they rely on.
* `size_t` is 64 bits wide; a conversion from `int` is `toSizeT` (reduction modulo
  `2^64`).
* The headers are packed little-endian structures (`#pragma pack(push, 1)`).
* A file is the list of its bytes.  An input stream is a position in that list
  together with its failure flag: once a read came up short every later read and
  seek is ignored, as `std::istream` does.
* A read that fails leaves its destination untouched.  The destinations in
  `load` are uninitialised locals; their prior contents are the parameter
  `Uninit`, over which every theorem quantifies.
* A vector subscript outside `[0, size)` and the exception of `resize` are
  results of type `Fault`; the `while (true)` loop of `plotLine` carries fuel.
-/

namespace BMP

/-- One 8-bit byte (`uint8_t`, `char`). -/
abbrev Byte := Fin 256

/-- The `Pixel` structure, fields in declaration order `r, g, b, a`. -/
structure Pixel where
  r : Byte
  g : Byte
  b : Byte
  a : Byte
deriving DecidableEq

/-- The data members of `BMPImage`. -/
structure BMPImage where
  width : Int
  height : Int
  pixels : List Pixel
deriving DecidableEq

/-- Abnormal outcomes of an execution. -/
inductive Fault where
  | outOfBounds
  | lengthError
  | outOfFuel
deriving DecidableEq

/-- Conversion of an `int` to `size_t`. -/
def toSizeT (v : Int) : Nat := (v % 18446744073709551616).toNat

/-- Reinterpretation of a 32-bit pattern as `int32_t`. -/
def toInt32 (n : Nat) : Int := if n < 2147483648 then (n : Int) else (n : Int) - 4294967296

/-- The `uint16_t` stored little-endian at offset `i` of a memory block. -/
def u16At (m : Nat → Byte) (i : Nat) : Nat := (m i).val + 256 * (m (i + 1)).val

/-- The `uint32_t` stored little-endian at offset `i` of a memory block. -/
def u32At (m : Nat → Byte) (i : Nat) : Nat :=
  (m i).val + 256 * (m (i + 1)).val + 65536 * (m (i + 2)).val + 16777216 * (m (i + 3)).val

/-- The `int32_t` stored little-endian at offset `i` of a memory block. -/
def i32At (m : Nat → Byte) (i : Nat) : Int := toInt32 (u32At m i)

/-- The two bytes of a `uint16_t` in memory order. -/
def u16Bytes (v : Nat) : List Byte := [Fin.ofNat v, Fin.ofNat (v / 256)]

/-- The four bytes of a `uint32_t` in memory order. -/
def u32Bytes (v : Nat) : List Byte :=
  [Fin.ofNat v, Fin.ofNat (v / 256), Fin.ofNat (v / 65536), Fin.ofNat (v / 16777216)]

/-- The four bytes of an `int32_t` in memory order (two's complement). -/
def i32Bytes (v : Int) : List Byte := u32Bytes (v % 4294967296).toNat

/-- The packed structure `BMPHeader` (14 bytes). -/
structure BMPHeader where
  bfType : Nat
  bfSize : Nat
  bfReserved1 : Nat
  bfReserved2 : Nat
  bfOffBits : Nat

/-- The packed structure `DIBHeader` (40 bytes). -/
structure DIBHeader where
  biSize : Nat
  biWidth : Int
  biHeight : Int
  biPlanes : Nat
  biBitCount : Nat
  biCompression : Nat
  biSizeImage : Nat
  biXPelsPerMeter : Int
  biYPelsPerMeter : Int
  biClrUsed : Nat
  biClrImportant : Nat

/-- The fields of a `BMPHeader` whose memory holds the bytes `m`. -/
def BMPHeader.ofBytes (m : Nat → Byte) : BMPHeader :=
  { bfType := u16At m 0, bfSize := u32At m 2, bfReserved1 := u16At m 6,
    bfReserved2 := u16At m 8, bfOffBits := u32At m 10 }

/-- The fields of a `DIBHeader` whose memory holds the bytes `m`. -/
def DIBHeader.ofBytes (m : Nat → Byte) : DIBHeader :=
  { biSize := u32At m 0, biWidth := i32At m 4, biHeight := i32At m 8,
    biPlanes := u16At m 12, biBitCount := u16At m 14, biCompression := u32At m 16,
    biSizeImage := u32At m 20, biXPelsPerMeter := i32At m 24, biYPelsPerMeter := i32At m 28,
    biClrUsed := u32At m 32, biClrImportant := u32At m 36 }

/-- The memory image of a `BMPHeader`, as `out.write` emits it. -/
def BMPHeader.toBytes (h : BMPHeader) : List Byte :=
  u16Bytes h.bfType ++ u32Bytes h.bfSize ++ u16Bytes h.bfReserved1 ++ u16Bytes h.bfReserved2
    ++ u32Bytes h.bfOffBits

/-- The memory image of a `DIBHeader`, as `out.write` emits it. -/
def DIBHeader.toBytes (h : DIBHeader) : List Byte :=
  u32Bytes h.biSize ++ i32Bytes h.biWidth ++ i32Bytes h.biHeight ++ u16Bytes h.biPlanes
    ++ u16Bytes h.biBitCount ++ u32Bytes h.biCompression ++ u32Bytes h.biSizeImage
    ++ i32Bytes h.biXPelsPerMeter ++ i32Bytes h.biYPelsPerMeter ++ u32Bytes h.biClrUsed
    ++ u32Bytes h.biClrImportant

/-- An opened `std::ifstream`: the file's bytes, the get position and whether
`failbit` is set. -/
structure IStream where
  data : List Byte
  pos : Nat
  failed : Bool

/-- The byte at position `i` of a file. -/
def byteAt (data : List Byte) (i : Nat) : Byte := data.getD i 0

/-- A freshly opened stream on a file. -/
def IStream.ofFile (data : List Byte) : IStream := { data := data, pos := 0, failed := false }

/-- The call `in.read(buf, n)`: on a good stream the available bytes, at most `n`, are
stored at the start of `buf` and a short read sets `failbit`; on a failed stream
nothing happens. -/
def IStream.read (s : IStream) (n : Nat) (buf : Nat → Byte) : (Nat → Byte) × IStream :=
  if s.failed then (buf, s)
  else
    let k := min n (s.data.length - s.pos)
    (fun i => if i < k then byteAt s.data (s.pos + i) else buf i,
     { s with pos := s.pos + k, failed := decide (k < n) })

/-- The call `in.read(&c, 1)` on a single byte whose prior content is `old`. -/
def IStream.read1 (s : IStream) (old : Byte) : Byte × IStream :=
  ((s.read 1 (fun _ => old)).1 0, (s.read 1 (fun _ => old)).2)

/-- The call `in.seekg(off, std::ios::beg)`; ignored on a failed stream. -/
def IStream.seekg (s : IStream) (off : Nat) : IStream :=
  if s.failed then s else { s with pos := off }

/-- The call `in.seekg(off, std::ios::cur)`; ignored on a failed stream. -/
def IStream.seekgCur (s : IStream) (off : Nat) : IStream :=
  if s.failed then s else { s with pos := s.pos + off }

/-- Prior contents of the uninitialised locals of `load`: the two header structures
and the `Pixel p` of the iteration at file row `y`, column `x`. -/
structure Uninit where
  bmpHeader : Nat → Byte
  dibHeader : Nat → Byte
  pixel : Nat → Nat → Pixel

/-- The call `pixels.resize(n)`: old elements are kept, new ones are value-initialised. -/
def resize (l : List Pixel) (n : Nat) : List Pixel :=
  l.take n ++ List.replicate (n - l.length) ⟨0, 0, 0, 0⟩

/-- The assignment `pixels[i] = p`. -/
def store (px : List Pixel) (i : Nat) (p : Pixel) : Except Fault (List Pixel) :=
  if i < px.length then .ok (px.set i p) else .error .outOfBounds

/-- The inner loop of `load`, `for (int x = 0; x < width; ++x)`, with `n` iterations left
and the loop variable at `x`. -/
def loadRow (u : Uninit) (bitCount : Nat) (width height : Int) (y : Nat) :
    Nat → Nat → IStream → List Pixel → Except Fault (IStream × List Pixel)
  | 0, _, s, px => .ok (s, px)
  | n + 1, x, s, px =>
    let p := u.pixel y x
    let rb := s.read1 p.b
    let rg := rb.2.read1 p.g
    let rr := rg.2.read1 p.r
    let ra := if bitCount = 32 then rr.2.read1 p.a else (255, rr.2)
    match store px (toSizeT ((height - y - 1) * width + x)) ⟨rr.1, rg.1, rb.1, ra.1⟩ with
    | .error e => .error e
    | .ok px1 => loadRow u bitCount width height y n (x + 1) ra.2 px1

/-- The outer loop of `load`, `for (int y = 0; y < height; ++y)`, with `n` iterations left
and the loop variable at `y`. -/
def loadRows (u : Uninit) (bitCount bfOffBits rowSize : Nat) (width height : Int) :
    Nat → Nat → IStream → List Pixel → Except Fault (IStream × List Pixel)
  | 0, _, s, px => .ok (s, px)
  | n + 1, y, s, px =>
    let rowPos := y * rowSize
    match loadRow u bitCount width height y width.toNat 0 (s.seekg (bfOffBits + rowPos)) px with
    | .error e => .error e
    | .ok r =>
      let padding := toSizeT ((rowSize : Int) - ((bitCount / 8 : Nat) : Int) * width)
      loadRows u bitCount bfOffBits rowSize width height n (y + 1) (r.1.seekgCur padding) r.2

/-- The method `BMPImage::load`.  The file is `none` when it cannot be opened.  The
result is the returned `bool` and the image afterwards. -/
def load (u : Uninit) (file : Option (List Byte)) (img : BMPImage) :
    Except Fault (Bool × BMPImage) :=
  match file with
  | none => .ok (false, img)
  | some data =>
    let r1 := (IStream.ofFile data).read 14 u.bmpHeader
    let bmpHeader := BMPHeader.ofBytes r1.1
    if bmpHeader.bfType ≠ 0x4D42 then .ok (false, img)
    else
      let r2 := r1.2.read 40 u.dibHeader
      let dibHeader := DIBHeader.ofBytes r2.1
      if dibHeader.biBitCount ≠ 24 ∧ dibHeader.biBitCount ≠ 32 then .ok (false, img)
      else
        let width := dibHeader.biWidth
        let height := dibHeader.biHeight
        let s := r2.2.seekg bmpHeader.bfOffBits
        let rowSize := toSizeT ((((dibHeader.biBitCount : Int) * width + 31).tdiv 32) * 4)
        if width * height < 0 then .error .lengthError
        else
          match loadRows u dibHeader.biBitCount bmpHeader.bfOffBits rowSize width height
              height.toNat 0 s (resize img.pixels (toSizeT (width * height))) with
          | .error e => .error e
          | .ok r => .ok (true, { width := width, height := height, pixels := r.2 })

/-- The inner loop of `save`, `for (int x = 0; x < width; ++x)`. -/
def saveRow (pixels : List Pixel) (rowStartPos : Nat) :
    Nat → Nat → List Byte → Except Fault (List Byte)
  | 0, _, out => .ok out
  | n + 1, x, out =>
    match pixels[rowStartPos + x]? with
    | none => .error .outOfBounds
    | some p => saveRow pixels rowStartPos n (x + 1) (out ++ [p.b, p.g, p.r])

/-- The outer loop of `save`, `for (int y = height-1; y >= 0; --y)`, with `n` iterations
left and the loop variable at `y`. -/
def saveRows (img : BMPImage) (rowSize : Int) : Nat → Int → List Byte → Except Fault (List Byte)
  | 0, _, out => .ok out
  | n + 1, y, out =>
    let rowStartPos := toSizeT (y * img.width)
    match saveRow img.pixels rowStartPos img.width.toNat 0 out with
    | .error e => .error e
    | .ok out1 =>
      let paddingSize := toSizeT (rowSize - 3 * img.width)
      saveRows img rowSize n (y - 1) (out1 ++ List.replicate paddingSize 0)

/-- The bytes that `BMPImage::save` sends to its output stream. -/
def saveBytes (img : BMPImage) : Except Fault (List Byte) :=
  let rowSize : Int := ((24 * img.width + 31).tdiv 32) * 4
  let pixelDataSize := toSizeT (rowSize * img.height)
  let bfOffBits := 14 + 40
  let bmpHeader : BMPHeader :=
    { bfType := 0x4D42, bfSize := (bfOffBits + pixelDataSize) % 4294967296, bfReserved1 := 0,
      bfReserved2 := 0, bfOffBits := bfOffBits }
  let dibHeader : DIBHeader :=
    { biSize := 40, biWidth := img.width, biHeight := img.height, biPlanes := 1,
      biBitCount := 24, biCompression := 0, biSizeImage := pixelDataSize % 4294967296,
      biXPelsPerMeter := 0, biYPelsPerMeter := 0, biClrUsed := 0, biClrImportant := 0 }
  saveRows img rowSize img.height.toNat (img.height - 1) (bmpHeader.toBytes ++ dibHeader.toBytes)

/-- The method `BMPImage::save`.  `canOpen` tells whether the output file could be
opened; the result is the returned `bool` and the content of the file, if any. -/
def save (canOpen : Bool) (img : BMPImage) : Except Fault (Bool × Option (List Byte)) :=
  match saveBytes img with
  | .error e => .error e
  | .ok bytes => .ok (true, if canOpen then some bytes else none)

/-- The inner loop of `printToConsole`; `out` is what was written to `std::cout` so far. -/
def printRow (pixels : List Pixel) (width : Int) (y : Nat) :
    Nat → Nat → List Char → Except Fault (List Char)
  | 0, _, out => .ok out
  | n + 1, x, out =>
    match pixels[toSizeT ((y : Int) * width + x)]? with
    | none => .error .outOfBounds
    | some p =>
      if p.r = 0 ∧ p.g = 0 ∧ p.b = 0 then
        printRow pixels width y n (x + 1) (out ++ ['#'])
      else if p.r = 255 ∧ p.g = 255 ∧ p.b = 255 then
        printRow pixels width y n (x + 1) (out ++ [' '])
      else
        printRow pixels width y n (x + 1) (out ++ ['?'])

/-- The outer loop of `printToConsole`. -/
def printRows (img : BMPImage) : Nat → Nat → List Char → Except Fault (List Char)
  | 0, _, out => .ok out
  | n + 1, y, out =>
    match printRow img.pixels img.width y img.width.toNat 0 out with
    | .error e => .error e
    | .ok out1 => printRows img n (y + 1) (out1 ++ ['\n'])

/-- The method `BMPImage::printToConsole`: the characters written to `std::cout`.  The
method is `const`: it yields no new image. -/
def printToConsole (img : BMPImage) : Except Fault (List Char) :=
  printRows img img.height.toNat 0 []

/-- The method `BMPImage::isValidColor`. -/
def isValidColor (p : Pixel) : Bool :=
  (p.r = 0 && p.g = 0 && p.b = 0) || (p.r = 255 && p.g = 255 && p.b = 255)

/-- The `while (true)` loop of `plotLine`, with the captured `width`, `height`, the
constants `x2, y2, dx, dy, sx, sy` and the loop state `x1, y1, err`.  `visited` records the
points at which the loop body was entered. -/
def plotLoop (width height x2 y2 dx dy sx sy : Int) :
    Nat → Int → Int → Int → List Pixel → List (Int × Int) →
      Except Fault (List Pixel × List (Int × Int))
  | 0, _, _, _, _, _ => .error .outOfFuel
  | fuel + 1, x1, y1, err, px, visited =>
    match (if (x1 ≥ 0 ∧ x1 < width) ∧ (y1 ≥ 0 ∧ y1 < height) then
        store px (toSizeT (y1 * width + x1)) ⟨255, 255, 255, 0⟩ else .ok px) with
    | .error e => .error e
    | .ok px1 =>
      if x1 = x2 ∧ y1 = y2 then .ok (px1, visited ++ [(x1, y1)])
      else
        let e2 := 2 * err
        let err1 := if e2 > -dy then err - dy else err
        let x1n := if e2 > -dy then x1 + sx else x1
        let err2 := if e2 < dx then err1 + dx else err1
        let y1n := if e2 < dx then y1 + sy else y1
        plotLoop width height x2 y2 dx dy sx sy fuel x1n y1n err2 px1 (visited ++ [(x1, y1)])

/-- The lambda `plotLine` of `drawX`. -/
def plotLine (fuel : Nat) (img : BMPImage) (visited : List (Int × Int)) (x1 y1 x2 y2 : Int) :
    Except Fault (BMPImage × List (Int × Int)) :=
  let dx : Int := |x2 - x1|
  let dy : Int := |y2 - y1|
  let err := dx - dy
  let sx : Int := if x1 < x2 then 1 else -1
  let sy : Int := if y1 < y2 then 1 else -1
  match plotLoop img.width img.height x2 y2 dx dy sx sy fuel x1 y1 err img.pixels visited with
  | .error e => .error e
  | .ok r => .ok ({ img with pixels := r.1 }, r.2)

/-- The method `BMPImage::drawX`; `fuel` bounds the iterations of each `plotLine`.  The
result is the image afterwards and the points visited, in order. -/
def drawX (fuel : Nat) (x y : Int) (img : BMPImage) : Except Fault (BMPImage × List (Int × Int)) :=
  match plotLine fuel img [] x y (x + 10) (y + 10) with
  | .error e => .error e
  | .ok r => plotLine fuel r.1 r.2 x (y + 10) (x + 10) y

/-- Equality of results is decidable, so that concrete executions can be evaluated. -/
instance instDecidableEqExcept {ε α : Type} [DecidableEq ε] [DecidableEq α] :
    DecidableEq (Except ε α)
  | .ok a, .ok b =>
    if h : a = b then isTrue (by rw [h]) else isFalse (fun h2 => h (Except.ok.inj h2))
  | .error a, .error b =>
    if h : a = b then isTrue (by rw [h]) else isFalse (fun h2 => h (Except.error.inj h2))
  | .ok _, .error _ => isFalse (fun h => Except.noConfusion h)
  | .error _, .ok _ => isFalse (fun h => Except.noConfusion h)

/-- The pixel that `load` decodes from the bytes at position `p` of a file. -/
def pixelAt (data : List Byte) (bitCount p : Nat) : Pixel :=
  ⟨byteAt data (p + 2), byteAt data (p + 1), byteAt data p,
    if bitCount = 32 then byteAt data (p + 3) else 255⟩

/-- The bytes of a file from position `k` on, seen as a memory block. -/
def fileMem (data : List Byte) (k : Nat) : Nat → Byte := fun i => byteAt data (k + i)

/-- The row stride of a 24-bit file of width `W`. -/
def stride24 (W : Nat) : Nat := ((24 * W + 31) / 32) * 4

/-- The two header structures that `save` fills in for a `W` by `H` image, as bytes. -/
def savedHeader (W H : Nat) : List Byte :=
  BMPHeader.toBytes
      { bfType := 0x4D42, bfSize := (14 + 40 + stride24 W * H) % 4294967296, bfReserved1 := 0,
        bfReserved2 := 0, bfOffBits := 14 + 40 }
    ++ DIBHeader.toBytes
      { biSize := 40, biWidth := W, biHeight := H, biPlanes := 1, biBitCount := 24,
        biCompression := 0, biSizeImage := (stride24 W * H) % 4294967296, biXPelsPerMeter := 0,
        biYPelsPerMeter := 0, biClrUsed := 0, biClrImportant := 0 }

/-- Little-endian encoding of `v` on `n` bytes, least significant byte first, as the file
format section of the specification words it. -/
def leBytes : Nat → Nat → List Byte
  | 0, _ => []
  | n + 1, v => Fin.ofNat v :: leBytes n (v / 256)

/-- The glyph of a pixel in the words of the specification: `#` for exactly black, a space
for exactly white, `?` otherwise. -/
def glyph (p : Pixel) : Char :=
  if p.r = 0 ∧ p.g = 0 ∧ p.b = 0 then '#'
  else if p.r = 255 ∧ p.g = 255 ∧ p.b = 255 then ' '
  else '?'

/-- Uninitialised locals that happen to hold zero bytes. -/
def zeroUninit : Uninit :=
  { bmpHeader := fun _ => 0, dibHeader := fun _ => 0, pixel := fun _ _ => ⟨0, 0, 0, 0⟩ }

/-- A 34-byte file: signature `BM`, pixel data offset 30, width 1, height 1, 24 bits per
pixel, and one padded row `9, 8, 7, 0` at offset 30.  The file ends inside the 40-byte info
header. -/
def truncatedHeaderFile : List Byte :=
  [0x42, 0x4D, 34, 0, 0, 0, 0, 0, 0, 0, 30, 0, 0, 0,
   40, 0, 0, 0, 1, 0, 0, 0, 1, 0, 0, 0, 1, 0, 24, 0,
   9, 8, 7, 0]

/-- A 58-byte 32-bit file of one pixel with blue 9, green 8, red 7, alpha 6 at the
canonical offset 54. -/
def onePixel32File : List Byte :=
  [0x42, 0x4D, 58, 0, 0, 0, 0, 0, 0, 0, 54, 0, 0, 0,
   40, 0, 0, 0, 1, 0, 0, 0, 1, 0, 0, 0, 1, 0, 32, 0,
   0, 0, 0, 0, 4, 0, 0, 0, 0, 0, 0, 0, 0, 0, 0, 0, 0, 0, 0, 0, 0, 0, 0, 0,
   9, 8, 7, 6]

/-- The effect of one visit of `plotLine` on the pixel vector: a point inside the buffer is
overwritten with the value of `{255,255,255}`, a point outside is skipped. -/
def plotPoint (width height : Int) (px : List Pixel) (p : Int × Int) : List Pixel :=
  if (p.1 ≥ 0 ∧ p.1 < width) ∧ (p.2 ≥ 0 ∧ p.2 < height) then
    px.set (p.2 * width + p.1).toNat ⟨255, 255, 255, 0⟩
  else px

/-- The points `(x + i, y + sy * i)`, `i = 0, …, k`, of a diagonal. -/
def diagPoints (sy : Int) : Nat → Int → Int → List (Int × Int)
  | 0, x, y => [(x, y)]
  | k + 1, x, y => (x, y) :: diagPoints sy k (x + 1) (y + sy)

/-- Membership of a pixel position in the cross with origin `(x, y)`: one of the points
`(x + i, y + i)` or `(x + i, y + 10 - i)`, `i = 0, …, 10`. -/
def onCross (x y qx qy : Int) : Prop :=
  ∃ i : Nat, i ≤ 10 ∧ qx = x + i ∧ (qy = y + i ∨ qy = y + 10 - i)

/-- The image states reachable from a successful `load`: the image a `load` that returned
`true` left behind, with width and height at least 1 and their product in the 32-bit
range, and every image a `drawX` returned from a reachable one.  `printToConsole` and `save`
yield no new image state. -/
inductive Reachable : BMPImage → Prop
  | loaded (u : Uninit) (file : Option (List Byte)) (img0 img : BMPImage) :
      load u file img0 = .ok (true, img) → 1 ≤ img.width → 1 ≤ img.height →
      img.width * img.height ≤ 2147483647 → Reachable img
  | drawn (fuel : Nat) (x y : Int) (img img1 : BMPImage) (visited : List (Int × Int)) :
      Reachable img → drawX fuel x y img = .ok (img1, visited) → Reachable img1

/-- A 54-byte file that ends right after its headers: signature `BM`, pixel data offset
1000, width 2, height 2, 24 bits per pixel, and no pixel data at all. -/
def headerOnlyFile : List Byte :=
  [0x42, 0x4D, 54, 0, 0, 0, 0, 0, 0, 0, 0xE8, 0x03, 0, 0,
   40, 0, 0, 0, 2, 0, 0, 0, 2, 0, 0, 0, 1, 0, 24, 0,
   0, 0, 0, 0, 0, 0, 0, 0, 0, 0, 0, 0, 0, 0, 0, 0, 0, 0, 0, 0, 0, 0, 0, 0]

/-- The canonical 24-bit `W` by `H` bitmap whose pixel bytes are all zero: the 54 header
bytes that `save` writes for these dimensions followed by `stride * H` zero bytes. -/
def blackBitmap (W H : Nat) : List Byte :=
  savedHeader W H ++ List.replicate (stride24 W * H) 0

/-- A 24-bit file of 78 bytes: a 3 by 2 image with the pixel data at offset 54, two rows of
nine colour bytes followed by three padding bytes each. -/
def threeByTwoFile : List Byte :=
  [0x42, 0x4D, 78, 0, 0, 0, 0, 0, 0, 0, 54, 0, 0, 0,
   40, 0, 0, 0, 3, 0, 0, 0, 2, 0, 0, 0, 1, 0, 24, 0,
   0, 0, 0, 0, 24, 0, 0, 0, 0, 0, 0, 0, 0, 0, 0, 0, 0, 0, 0, 0, 0, 0, 0, 0,
   1, 2, 3, 4, 5, 6, 7, 8, 9, 0, 0, 0,
   11, 12, 13, 14, 15, 16, 17, 18, 19, 0, 0, 0]

theorem read1_good (s : IStream) (old : Byte) (hf : s.failed = false) (hp : s.pos < s.data.length) :
    s.read1 old = (byteAt s.data s.pos, { data := s.data, pos := s.pos + 1, failed := false }) := by
  have hk : min 1 (s.data.length - s.pos) = 1 := by omega
  simp [IStream.read1, IStream.read, hf, hk]

theorem read_good (s : IStream) (n : Nat) (buf : Nat → Byte) (hf : s.failed = false)
    (hp : s.pos + n ≤ s.data.length) :
    s.read n buf = (fun i => if i < n then byteAt s.data (s.pos + i) else buf i,
      { data := s.data, pos := s.pos + n, failed := false }) := by
  have hk : min n (s.data.length - s.pos) = n := by omega
  simp [IStream.read, hf, hk]

theorem toSizeT_natCast (n : Nat) (h : n < 18446744073709551616) : toSizeT (n : Int) = n := by
  unfold toSizeT; omega

theorem loadRow_good (u : Uninit) (bitCount : Nat) (width height : Int) (y base : Nat)
    (hb : bitCount = 24 ∨ bitCount = 32) (W : Nat)
    (hidx : ∀ x, x < W → toSizeT ((height - y - 1) * width + x) = base + x) :
    ∀ (n x : Nat) (s : IStream) (px : List Pixel), s.failed = false →
      s.pos + n * (bitCount / 8) ≤ s.data.length → x + n ≤ W → base + W ≤ px.length →
      ∃ px1, loadRow u bitCount width height y n x s px
          = .ok ({ data := s.data, pos := s.pos + n * (bitCount / 8), failed := false }, px1)
        ∧ px1.length = px.length
        ∧ (∀ j, j < base + x ∨ base + x + n ≤ j → px1[j]? = px[j]?)
        ∧ (∀ i, i < n → px1[base + x + i]? = some (pixelAt s.data bitCount (s.pos + i * (bitCount / 8)))) := by
  intro n
  induction n with
  | zero =>
    intro x s px hf _ _ _
    refine ⟨px, ?_, rfl, fun _ _ => rfl, fun i hi => absurd hi (Nat.not_lt_zero i)⟩
    cases s; simp_all [loadRow]
  | succ n ih =>
    intro x s px hf hlen hx hpx
    have hbpp : bitCount / 8 = 3 ∨ bitCount / 8 = 4 := by omega
    have hn : (n + 1) * (bitCount / 8) = n * (bitCount / 8) + bitCount / 8 := Nat.succ_mul _ _
    have hlt : base + x < px.length := by omega
    have e1 := read1_good s (u.pixel y x).b hf (by omega)
    have e2 := read1_good ⟨s.data, s.pos + 1, false⟩ (u.pixel y x).g rfl
      (by show s.pos + 1 < s.data.length; omega)
    have e3 := read1_good ⟨s.data, s.pos + 1 + 1, false⟩ (u.pixel y x).r rfl
      (by show s.pos + 1 + 1 < s.data.length; omega)
    simp only [] at e2 e3
    -- the alpha channel and the stream after the pixel
    obtain ⟨a, ha, era⟩ : ∃ a, a = (pixelAt s.data bitCount s.pos).a ∧
        (if bitCount = 32 then
            (IStream.mk s.data (s.pos + 1 + 1 + 1) false).read1 (u.pixel y x).a
          else (255, IStream.mk s.data (s.pos + 1 + 1 + 1) false))
          = (a, IStream.mk s.data (s.pos + bitCount / 8) false) := by
      rcases hb with hb | hb
      · subst hb; exact ⟨255, by simp [pixelAt], by simp⟩
      · subst hb
        have e4 := read1_good ⟨s.data, s.pos + 1 + 1 + 1, false⟩ (u.pixel y x).a rfl
          (by show s.pos + 1 + 1 + 1 < s.data.length; omega)
        simp only [] at e4
        exact ⟨byteAt s.data (s.pos + 1 + 1 + 1), by simp [pixelAt], by simp [e4]⟩
    obtain ⟨px1, h1, h2, h3, h4⟩ := ih (x + 1) ⟨s.data, s.pos + bitCount / 8, false⟩
      (px.set (base + x) ⟨byteAt s.data (s.pos + 1 + 1), byteAt s.data (s.pos + 1),
        byteAt s.data s.pos, a⟩) rfl
      (by show s.pos + bitCount / 8 + n * (bitCount / 8) ≤ s.data.length; omega) (by omega)
      (by rw [List.length_set]; exact hpx)
    simp only [] at h1 h4
    rw [List.length_set] at h2
    refine ⟨px1, ?_, h2, ?_, ?_⟩
    · simp only [loadRow, e1, e2, e3, era, hidx x (by omega), store, hlt, if_true, h1]
      rw [hn]
      congr 3; omega
    · intro j hj
      rw [h3 j (by omega), List.getElem?_set]
      have : base + x ≠ j := by omega
      simp [this]
    · intro i hi
      rcases Nat.eq_zero_or_pos i with h0 | hpos
      · subst h0
        rw [h3 (base + x + 0) (by omega), List.getElem?_set]
        simp [hlt, pixelAt, ha]
      · obtain ⟨i', rfl⟩ : ∃ i', i = i' + 1 := ⟨i - 1, by omega⟩
        have := h4 i' (by omega)
        have e : base + (x + 1) + i' = base + x + (i' + 1) := by omega
        rw [e] at this
        rw [this]
        congr 2
        rw [Nat.succ_mul]; omega


theorem rowIndex_eq (W H y x : Nat) (hy : y < H) (hx : x < W)
    (hWH : W * H < 18446744073709551616) :
    toSizeT (((H : Int) - y - 1) * (W : Int) + x) = (H - 1 - y) * W + x := by
  have hc : ((H : Int) - y - 1) * (W : Int) + x = (((H - 1 - y) * W + x : Nat) : Int) := by
    have : ((H - 1 - y : Nat) : Int) = (H : Int) - y - 1 := by omega
    push_cast
    rw [this]
  rw [hc]
  apply toSizeT_natCast
  have h1 : (H - 1 - y) * W + W = (H - 1 - y + 1) * W := (Nat.succ_mul _ _).symm
  have h2 : (H - 1 - y + 1) * W ≤ H * W := Nat.mul_le_mul_right W (by omega)
  have h3 : H * W = W * H := Nat.mul_comm _ _
  omega

theorem loadRows_good (u : Uninit) (bitCount bfOffBits rowSize W H : Nat) (data : List Byte)
    (hb : bitCount = 24 ∨ bitCount = 32) (hWH : W * H < 18446744073709551616)
    (hrow : W * (bitCount / 8) ≤ rowSize) (hlen : bfOffBits + H * rowSize ≤ data.length) :
    ∀ (n y : Nat) (s : IStream) (px : List Pixel), s.failed = false → s.data = data →
      y + n = H → px.length = W * H →
      ∃ s1 px1, loadRows u bitCount bfOffBits rowSize W H n y s px = .ok (s1, px1)
        ∧ px1.length = px.length
        ∧ (∀ j, (H - y) * W ≤ j → px1[j]? = px[j]?)
        ∧ (∀ y1 x, y ≤ y1 → y1 < H → x < W → px1[(H - 1 - y1) * W + x]?
            = some (pixelAt data bitCount (bfOffBits + y1 * rowSize + x * (bitCount / 8)))) := by
  intro n
  induction n with
  | zero =>
    intro y s px _ _ hy _
    exact ⟨s, px, rfl, rfl, fun _ _ => rfl, fun y1 x h1 h2 _ => absurd h2 (by omega)⟩
  | succ n ih =>
    intro y s px hf hd hy hpx
    have hyH : y < H := by omega
    have hrowW : (H - 1 - y) * W + W = (H - y) * W := by
      have : H - y = H - 1 - y + 1 := by omega
      rw [this, Nat.succ_mul]
    have hle : (H - y) * W ≤ W * H := by
      rw [Nat.mul_comm W H]; exact Nat.mul_le_mul_right W (by omega)
    have hpos : bfOffBits + y * rowSize + rowSize ≤ data.length := by
      have h1 : (y + 1) * rowSize ≤ H * rowSize := Nat.mul_le_mul_right rowSize (by omega)
      rw [Nat.succ_mul] at h1
      omega
    have hsk : s.seekg (bfOffBits + y * rowSize) = ⟨data, bfOffBits + y * rowSize, false⟩ := by
      cases s; simp_all [IStream.seekg]
    obtain ⟨px1, h1, h2, h3, h4⟩ := loadRow_good u bitCount W H y ((H - 1 - y) * W) hb W
      (fun x hx => rowIndex_eq W H y x hyH hx hWH) W 0 ⟨data, bfOffBits + y * rowSize, false⟩ px rfl
      (by show bfOffBits + y * rowSize + W * (bitCount / 8) ≤ data.length; omega) (by omega)
      (by omega)
    simp only [] at h1 h4
    obtain ⟨s2, px2, g1, g2, g3, g4⟩ := ih (y + 1)
      ((IStream.mk data (bfOffBits + y * rowSize + W * (bitCount / 8)) false).seekgCur
        (toSizeT ((rowSize : Int) - ((bitCount / 8 : Nat) : Int) * (W : Int)))) px1
      (by simp [IStream.seekgCur]) (by simp [IStream.seekgCur]) (by omega) (by omega)
    refine ⟨s2, px2, ?_, by omega, ?_, ?_⟩
    · simp only [loadRows, Int.toNat_ofNat, hsk, h1, g1]
    · intro j hj
      have hj1 : (H - (y + 1)) * W ≤ j := by
        have : H - (y + 1) = H - 1 - y := by omega
        rw [this]; omega
      rw [g3 j hj1, h3 j (by omega)]
    · intro y1 x hy1 hy1H hx
      rcases Nat.eq_or_lt_of_le hy1 with heq | hlt
      · subst heq
        have hj1 : (H - (y + 1)) * W ≤ (H - 1 - y) * W + x := by
          have : H - (y + 1) = H - 1 - y := by omega
          rw [this]; omega
        rw [g3 _ hj1]
        have := h4 x hx
        rw [Nat.add_zero] at this
        rw [this]
      · exact g4 y1 x (by omega) hy1H hx


theorem bmpHeader_ofBytes_read (data : List Byte) (buf : Nat → Byte) :
    BMPHeader.ofBytes (fun i => if i < 14 then byteAt data (0 + i) else buf i)
      = BMPHeader.ofBytes (fileMem data 0) := by
  simp [BMPHeader.ofBytes, u16At, u32At, fileMem]

theorem dibHeader_ofBytes_read (data : List Byte) (buf : Nat → Byte) :
    DIBHeader.ofBytes (fun i => if i < 40 then byteAt data (14 + i) else buf i)
      = DIBHeader.ofBytes (fileMem data 14) := by
  simp [DIBHeader.ofBytes, u16At, u32At, i32At, fileMem]

theorem u32At_lt (m : Nat → Byte) (i : Nat) : u32At m i < 4294967296 := by
  have h0 := (m i).isLt
  have h1 := (m (i + 1)).isLt
  have h2 := (m (i + 2)).isLt
  have h3 := (m (i + 3)).isLt
  unfold u32At
  omega

theorem i32At_le (m : Nat → Byte) (i : Nat) : i32At m i ≤ 2147483647 := by
  have := u32At_lt m i
  unfold i32At toInt32
  split <;> omega

theorem rowSize_eq (b W : Nat) (hW : W ≤ 2147483647) (hb : b ≤ 32) :
    toSizeT ((((b : Int) * (W : Int) + 31).tdiv 32) * 4) = ((b * W + 31) / 32) * 4 := by
  have h0 : (0 : Int) ≤ (b : Int) * (W : Int) + 31 := by positivity
  rw [Int.tdiv_eq_ediv h0 (by norm_num)]
  have hc : ((b : Int) * (W : Int) + 31) / 32 * 4 = ((((b * W + 31) / 32) * 4 : Nat) : Int) := by
    push_cast; rfl
  rw [hc]
  apply toSizeT_natCast
  have : b * W ≤ 32 * 2147483647 := Nat.mul_le_mul hb hW
  omega

theorem load_good (u : Uninit) (data : List Byte) (img : BMPImage) (W H b off : Nat)
    (h54 : 54 ≤ data.length)
    (hsig : (BMPHeader.ofBytes (fileMem data 0)).bfType = 0x4D42)
    (hoff : (BMPHeader.ofBytes (fileMem data 0)).bfOffBits = off)
    (hbc : (DIBHeader.ofBytes (fileMem data 14)).biBitCount = b)
    (hw : (DIBHeader.ofBytes (fileMem data 14)).biWidth = (W : Int))
    (hh : (DIBHeader.ofBytes (fileMem data 14)).biHeight = (H : Int))
    (hb : b = 24 ∨ b = 32) (hWH : W * H ≤ 2147483647)
    (hlen : off + H * (((b * W + 31) / 32) * 4) ≤ data.length) :
    ∃ px, load u (some data) img = .ok (true, { width := W, height := H, pixels := px })
      ∧ px.length = W * H
      ∧ ∀ r x, r < H → x < W → px[r * W + x]?
          = some (pixelAt data b (off + (H - 1 - r) * (((b * W + 31) / 32) * 4) + x * (b / 8))) := by
  have hWr : W ≤ 2147483647 := by
    have := i32At_le (fileMem data 14) 4
    have e : i32At (fileMem data 14) 4 = (W : Int) := hw
    omega
  have hr1 := read_good (IStream.ofFile data) 14 u.bmpHeader rfl
    (by show 0 + 14 ≤ data.length; omega)
  have hr2 := read_good ⟨data, 0 + 14, false⟩ 40 u.dibHeader rfl
    (by show 0 + 14 + 40 ≤ data.length; omega)
  simp only [IStream.ofFile] at hr1
  simp only [] at hr2
  have hprod : ¬ ((W : Int) * (H : Int) < 0) := by
    have : (0 : Int) ≤ (W : Int) * (H : Int) := by positivity
    omega
  have hres : (resize img.pixels (toSizeT ((W : Int) * (H : Int)))).length = W * H := by
    have : toSizeT ((W : Int) * (H : Int)) = W * H := by
      rw [← Nat.cast_mul]; exact toSizeT_natCast _ (by omega)
    rw [this]
    simp [resize]
    omega
  have hrow : W * (b / 8) ≤ ((b * W + 31) / 32) * 4 := by
    rcases hb with rfl | rfl <;> omega
  obtain ⟨s1, px1, g1, g2, _, g4⟩ := loadRows_good u b off (((b * W + 31) / 32) * 4) W H data hb
    (by omega) hrow hlen H 0 ((IStream.mk data (0 + 14 + 40) false).seekg off)
    (resize img.pixels (toSizeT ((W : Int) * (H : Int))))
    (by simp [IStream.seekg]) (by simp [IStream.seekg]) (by omega) hres
  refine ⟨px1, ?_, by omega, ?_⟩
  · have hbne : ¬ (b ≠ 24 ∧ b ≠ 32) := by omega
    simp only [load, IStream.ofFile, hr1, bmpHeader_ofBytes_read, hsig, hr2, dibHeader_ofBytes_read,
      hbc, hw, hh, hoff, rowSize_eq b W hWr (by omega), hprod, Int.toNat_ofNat, g1, hbne,
      ne_eq, not_true_eq_false, if_false]
  · intro r x hr hx
    have := g4 (H - 1 - r) x (by omega) (by omega) hx
    have e : H - 1 - (H - 1 - r) = r := by omega
    rw [e] at this
    exact this


theorem saveRow_good (pixels : List Pixel) (rowStartPos : Nat) :
    ∀ (n x : Nat) (out : List Byte), rowStartPos + x + n ≤ pixels.length →
      ∃ r, saveRow pixels rowStartPos n x out = .ok r
        ∧ r.length = out.length + 3 * n
        ∧ (∀ j, j < out.length → r[j]? = out[j]?)
        ∧ (∀ i p, i < n → pixels[rowStartPos + x + i]? = some p →
            r[out.length + 3 * i]? = some p.b ∧ r[out.length + 3 * i + 1]? = some p.g
              ∧ r[out.length + 3 * i + 2]? = some p.r) := by
  intro n
  induction n with
  | zero =>
    intro x out _
    exact ⟨out, rfl, rfl, fun _ _ => rfl, fun i p hi => absurd hi (Nat.not_lt_zero i)⟩
  | succ n ih =>
    intro x out hlen
    have hlt : rowStartPos + x < pixels.length := by omega
    obtain ⟨r, h1, h2, h3, h4⟩ := ih (x + 1)
      (out ++ [pixels[rowStartPos + x].b, pixels[rowStartPos + x].g, pixels[rowStartPos + x].r])
      (by omega)
    have hl : (out ++ [pixels[rowStartPos + x].b, pixels[rowStartPos + x].g,
        pixels[rowStartPos + x].r]).length = out.length + 3 := by simp
    rw [hl] at h2 h3 h4
    refine ⟨r, ?_, by omega, ?_, ?_⟩
    · simp only [saveRow, List.getElem?_eq_getElem hlt, h1]
    · intro j hj
      rw [h3 j (by omega), List.getElem?_append_left hj]
    · intro i p hi hp
      rcases Nat.eq_zero_or_pos i with h0 | hpos
      · subst h0
        rw [Nat.add_zero, List.getElem?_eq_getElem hlt] at hp
        cases hp
        refine ⟨?_, ?_, ?_⟩
        · rw [h3 _ (by omega), List.getElem?_append_right (by omega)]; simp
        · rw [h3 _ (by omega), List.getElem?_append_right (by omega)]
          have : out.length + 3 * 0 + 1 - out.length = 1 := by omega
          rw [this]; rfl
        · rw [h3 _ (by omega), List.getElem?_append_right (by omega)]
          have : out.length + 3 * 0 + 2 - out.length = 2 := by omega
          rw [this]; rfl
      · obtain ⟨i', rfl⟩ : ∃ i', i = i' + 1 := ⟨i - 1, by omega⟩
        have e : rowStartPos + (x + 1) + i' = rowStartPos + x + (i' + 1) := by omega
        have := h4 i' p (by omega) (by rw [e]; exact hp)
        have e0 : out.length + 3 + 3 * i' = out.length + 3 * (i' + 1) := by omega
        rw [e0] at this
        exact this

theorem save_rowSize_eq (W : Nat) :
    ((24 * (W : Int) + 31).tdiv 32) * 4 = ((((24 * W + 31) / 32) * 4 : Nat) : Int) := by
  have h0 : (0 : Int) ≤ 24 * (W : Int) + 31 := by positivity
  rw [Int.tdiv_eq_ediv h0 (by norm_num)]
  push_cast; rfl

theorem saveRows_good (img : BMPImage) (W H : Nat) (hw : img.width = (W : Int))
    (hpx : img.pixels.length = W * H) (hWH : W * H < 18446744073709551616)
    (hWr : W ≤ 2147483647) :
    ∀ (n : Nat) (out : List Byte), n ≤ H →
      ∃ r, saveRows img ((((24 * W + 31) / 32) * 4 : Nat) : Int) n ((n : Int) - 1) out = .ok r
        ∧ r.length = out.length + n * (((24 * W + 31) / 32) * 4)
        ∧ (∀ j, j < out.length → r[j]? = out[j]?)
        ∧ (∀ k x p, k < n → x < W → img.pixels[(n - 1 - k) * W + x]? = some p →
            r[out.length + k * (((24 * W + 31) / 32) * 4) + 3 * x]? = some p.b
            ∧ r[out.length + k * (((24 * W + 31) / 32) * 4) + 3 * x + 1]? = some p.g
            ∧ r[out.length + k * (((24 * W + 31) / 32) * 4) + 3 * x + 2]? = some p.r)
        ∧ (∀ k j, k < n → 3 * W ≤ j → j < ((24 * W + 31) / 32) * 4 →
            r[out.length + k * (((24 * W + 31) / 32) * 4) + j]? = some 0) := by
  intro n
  induction n with
  | zero =>
    intro out _
    exact ⟨out, rfl, by simp, fun _ _ => rfl, fun k x p hk => absurd hk (Nat.not_lt_zero k),
      fun k j hk => absurd hk (Nat.not_lt_zero k)⟩
  | succ n ih =>
    intro out hn
    have hy : (((n + 1 : Nat) : Int) - 1) = (n : Int) := by push_cast; ring
    have hnW : n * W + W ≤ W * H := by
      have h1 : (n + 1) * W ≤ H * W := Nat.mul_le_mul_right W hn
      rw [Nat.succ_mul, Nat.mul_comm H W] at h1
      exact h1
    have hstart : toSizeT ((n : Int) * img.width) = n * W := by
      rw [hw, ← Nat.cast_mul]; exact toSizeT_natCast _ (by omega)
    have hpad : toSizeT (((((24 * W + 31) / 32) * 4 : Nat) : Int) - 3 * img.width)
        = ((24 * W + 31) / 32) * 4 - 3 * W := by
      rw [hw]; unfold toSizeT; omega
    obtain ⟨r1, a1, a2, a3, a4⟩ := saveRow_good img.pixels (n * W) W 0 out (by omega)
    obtain ⟨r, b1, b2, b3, b4, b5⟩ := ih
      (r1 ++ List.replicate (((24 * W + 31) / 32) * 4 - 3 * W) 0) (by omega)
    have hl : (r1 ++ List.replicate (((24 * W + 31) / 32) * 4 - 3 * W) (0 : Byte)).length
        = out.length + ((24 * W + 31) / 32) * 4 := by
      simp only [List.length_append, List.length_replicate]; omega
    rw [hl] at b2 b3 b4 b5
    have hsm : (n + 1) * (((24 * W + 31) / 32) * 4)
        = n * (((24 * W + 31) / 32) * 4) + ((24 * W + 31) / 32) * 4 := Nat.succ_mul _ _
    refine ⟨r, ?_, by omega, ?_, ?_, ?_⟩
    · rw [hw] at hstart hpad
      simp only [saveRows, hy, hw, hstart, Int.toNat_ofNat, a1, hpad, b1]
    · intro j hj
      rw [b3 j (by omega), List.getElem?_append_left (by omega), a3 j hj]
    · intro k x p hk hx hp
      rcases Nat.eq_zero_or_pos k with h0 | hpos
      · subst h0
        have e : (n + 1 - 1 - 0) * W + x = n * W + 0 + x := by simp
        rw [e] at hp
        obtain ⟨c1, c2, c3⟩ := a4 x p hx hp
        simp only [Nat.zero_mul, Nat.add_zero]
        refine ⟨?_, ?_, ?_⟩
        · rw [b3 _ (by omega), List.getElem?_append_left (by omega), c1]
        · rw [b3 _ (by omega), List.getElem?_append_left (by omega), c2]
        · rw [b3 _ (by omega), List.getElem?_append_left (by omega), c3]
      · obtain ⟨k', rfl⟩ : ∃ k', k = k' + 1 := ⟨k - 1, by omega⟩
        have e : (n + 1 - 1 - (k' + 1)) * W + x = (n - 1 - k') * W + x := by
          congr 2; omega
        rw [e] at hp
        have := b4 k' x p (by omega) hx hp
        have e0 : out.length + (k' + 1) * (((24 * W + 31) / 32) * 4)
            = out.length + ((24 * W + 31) / 32) * 4 + k' * (((24 * W + 31) / 32) * 4) := by
          rw [Nat.succ_mul]; omega
        rw [e0]
        exact this
    · intro k j hk hj1 hj2
      rcases Nat.eq_zero_or_pos k with h0 | hpos
      · subst h0
        simp only [Nat.zero_mul, Nat.add_zero]
        rw [b3 _ (by omega), List.getElem?_append_right (by omega)]
        rw [List.getElem?_replicate]
        have : out.length + j - r1.length < ((24 * W + 31) / 32) * 4 - 3 * W := by omega
        simp [this]
      · obtain ⟨k', rfl⟩ : ∃ k', k = k' + 1 := ⟨k - 1, by omega⟩
        have := b5 k' j (by omega) hj1 hj2
        have e0 : out.length + (k' + 1) * (((24 * W + 31) / 32) * 4)
            = out.length + ((24 * W + 31) / 32) * 4 + k' * (((24 * W + 31) / 32) * 4) := by
          rw [Nat.succ_mul]; omega
        rw [e0]
        exact this


theorem savedHeader_length (W H : Nat) : (savedHeader W H).length = 54 := rfl

theorem saveBytes_good (img : BMPImage) (W H : Nat) (hw : img.width = (W : Int))
    (hh : img.height = (H : Int)) (hpx : img.pixels.length = W * H)
    (hWr : W ≤ 2147483647) (hHr : H ≤ 2147483647) :
    ∃ r, saveBytes img = .ok r
      ∧ r.length = 54 + H * stride24 W
      ∧ (∀ j, j < 54 → r[j]? = (savedHeader W H)[j]?)
      ∧ (∀ k x p, k < H → x < W → img.pixels[(H - 1 - k) * W + x]? = some p →
          r[54 + k * stride24 W + 3 * x]? = some p.b
          ∧ r[54 + k * stride24 W + 3 * x + 1]? = some p.g
          ∧ r[54 + k * stride24 W + 3 * x + 2]? = some p.r)
      ∧ (∀ k j, k < H → 3 * W ≤ j → j < stride24 W → r[54 + k * stride24 W + j]? = some 0) := by
  have hWH : W * H < 18446744073709551616 := by
    have : W * H ≤ 2147483647 * 2147483647 := Nat.mul_le_mul hWr hHr
    omega
  have hSr : stride24 W ≤ 8589934592 := by unfold stride24; omega
  have hSH : stride24 W * H < 18446744073709551616 := by
    have : stride24 W * H ≤ 8589934592 * 2147483647 := Nat.mul_le_mul hSr hHr
    omega
  obtain ⟨r, h1, h2, h3, h4, h5⟩ := saveRows_good img W H hw hpx hWH hWr H (savedHeader W H)
    (le_refl H)
  rw [savedHeader_length] at h2 h3 h4 h5
  refine ⟨r, ?_, h2, h3, h4, h5⟩
  have hsz : toSizeT ((((24 * W + 31) / 32 * 4 : Nat) : Int) * (H : Int)) = stride24 W * H := by
    rw [← Nat.cast_mul]; exact toSizeT_natCast _ hSH
  simp only [saveBytes, hw, hh, save_rowSize_eq, Int.toNat_ofNat, hsz]
  exact h1

theorem byteAt_of_getElem? (data : List Byte) (j : Nat) (b : Byte) (h : data[j]? = some b) :
    byteAt data j = b := by
  simp [byteAt, List.getD_eq_getElem?_getD, h]

theorem byteAt_congr (r l : List Byte) (j : Nat) (h : r[j]? = l[j]?) : byteAt r j = byteAt l j := by
  simp [byteAt, List.getD_eq_getElem?_getD, h]

theorem savedHeader_fields (data : List Byte) (W H : Nat) (hWr : W ≤ 2147483647)
    (hHr : H ≤ 2147483647) (hd : ∀ j, j < 54 → data[j]? = (savedHeader W H)[j]?) :
    (BMPHeader.ofBytes (fileMem data 0)).bfType = 0x4D42
      ∧ (BMPHeader.ofBytes (fileMem data 0)).bfOffBits = 54
      ∧ (DIBHeader.ofBytes (fileMem data 14)).biBitCount = 24
      ∧ (DIBHeader.ofBytes (fileMem data 14)).biWidth = (W : Int)
      ∧ (DIBHeader.ofBytes (fileMem data 14)).biHeight = (H : Int) := by
  have hb : ∀ j, j < 54 → byteAt data j = byteAt (savedHeader W H) j :=
    fun j hj => byteAt_congr _ _ j (hd j hj)
  have v : ∀ n : Nat, (Fin.ofNat n : Fin 256).val = n % 256 := fun _ => rfl
  refine ⟨?_, ?_, ?_, ?_, ?_⟩
  · simp only [BMPHeader.ofBytes, u16At, fileMem]
    rw [hb (0 + 0) (by omega), hb (0 + (0 + 1)) (by omega)]
    have e0 : byteAt (savedHeader W H) (0 + 0) = Fin.ofNat 0x4D42 := rfl
    have e1 : byteAt (savedHeader W H) (0 + (0 + 1)) = Fin.ofNat (0x4D42 / 256) := rfl
    rw [e0, e1]
    simp only [v]
  · simp only [BMPHeader.ofBytes, u32At, fileMem]
    rw [hb (0 + 10) (by omega), hb (0 + (10 + 1)) (by omega), hb (0 + (10 + 2)) (by omega),
      hb (0 + (10 + 3)) (by omega)]
    have e0 : byteAt (savedHeader W H) (0 + 10) = Fin.ofNat (14 + 40) := rfl
    have e1 : byteAt (savedHeader W H) (0 + (10 + 1)) = Fin.ofNat ((14 + 40) / 256) := rfl
    have e2 : byteAt (savedHeader W H) (0 + (10 + 2)) = Fin.ofNat ((14 + 40) / 65536) := rfl
    have e3 : byteAt (savedHeader W H) (0 + (10 + 3)) = Fin.ofNat ((14 + 40) / 16777216) := rfl
    rw [e0, e1, e2, e3]
    simp only [v]
  · simp only [DIBHeader.ofBytes, u16At, fileMem]
    rw [hb (14 + 14) (by omega), hb (14 + (14 + 1)) (by omega)]
    have e0 : byteAt (savedHeader W H) (14 + 14) = Fin.ofNat 24 := rfl
    have e1 : byteAt (savedHeader W H) (14 + (14 + 1)) = Fin.ofNat (24 / 256) := rfl
    rw [e0, e1]
    simp only [v]
  · simp only [DIBHeader.ofBytes, i32At, u32At, fileMem]
    rw [hb (14 + 4) (by omega), hb (14 + (4 + 1)) (by omega), hb (14 + (4 + 2)) (by omega),
      hb (14 + (4 + 3)) (by omega)]
    have e0 : byteAt (savedHeader W H) (14 + 4) = Fin.ofNat (((W : Int) % 4294967296).toNat) := rfl
    have e1 : byteAt (savedHeader W H) (14 + (4 + 1))
        = Fin.ofNat (((W : Int) % 4294967296).toNat / 256) := rfl
    have e2 : byteAt (savedHeader W H) (14 + (4 + 2))
        = Fin.ofNat (((W : Int) % 4294967296).toNat / 65536) := rfl
    have e3 : byteAt (savedHeader W H) (14 + (4 + 3))
        = Fin.ofNat (((W : Int) % 4294967296).toNat / 16777216) := rfl
    rw [e0, e1, e2, e3]
    simp only [v, toInt32]
    split <;> omega
  · simp only [DIBHeader.ofBytes, i32At, u32At, fileMem]
    rw [hb (14 + 8) (by omega), hb (14 + (8 + 1)) (by omega), hb (14 + (8 + 2)) (by omega),
      hb (14 + (8 + 3)) (by omega)]
    have e0 : byteAt (savedHeader W H) (14 + 8) = Fin.ofNat (((H : Int) % 4294967296).toNat) := rfl
    have e1 : byteAt (savedHeader W H) (14 + (8 + 1))
        = Fin.ofNat (((H : Int) % 4294967296).toNat / 256) := rfl
    have e2 : byteAt (savedHeader W H) (14 + (8 + 2))
        = Fin.ofNat (((H : Int) % 4294967296).toNat / 65536) := rfl
    have e3 : byteAt (savedHeader W H) (14 + (8 + 3))
        = Fin.ofNat (((H : Int) % 4294967296).toNat / 16777216) := rfl
    rw [e0, e1, e2, e3]
    simp only [v, toInt32]
    split <;> omega

theorem pixelIndex_lt (width height x1 y1 : Int) (hx0 : 0 ≤ x1) (hx1 : x1 < width)
    (hy0 : 0 ≤ y1) (hy1 : y1 < height) :
    0 ≤ y1 * width + x1 ∧ y1 * width + x1 < width * height := by
  have h1 : 0 ≤ y1 * width := Int.mul_nonneg hy0 (by omega)
  have h2 : (y1 + 1) * width ≤ height * width :=
    Int.mul_le_mul_of_nonneg_right (by omega) (by omega)
  have h3 : (y1 + 1) * width = y1 * width + width := by ring
  have h4 : height * width = width * height := Int.mul_comm _ _
  omega

theorem pixelIndex_inj (width x1 y1 x2 y2 : Int) (hx0 : 0 ≤ x1) (hx1 : x1 < width)
    (hx2 : 0 ≤ x2) (hx3 : x2 < width) (h : y1 * width + x1 = y2 * width + x2) :
    x1 = x2 ∧ y1 = y2 := by
  have hy : y1 = y2 := by
    rcases lt_trichotomy y1 y2 with hlt | heq | hgt
    · have h2 : (y1 + 1) * width ≤ y2 * width :=
        Int.mul_le_mul_of_nonneg_right (by omega) (by omega)
      have h3 : (y1 + 1) * width = y1 * width + width := by ring
      omega
    · exact heq
    · have h2 : (y2 + 1) * width ≤ y1 * width :=
        Int.mul_le_mul_of_nonneg_right (by omega) (by omega)
      have h3 : (y2 + 1) * width = y2 * width + width := by ring
      omega
  subst hy
  exact ⟨by omega, rfl⟩

theorem plot_store_eq (width height : Int) (px : List Pixel) (x1 y1 : Int)
    (hlen : (px.length : Int) = width * height) (hWH : width * height ≤ 2147483647) :
    (if (x1 ≥ 0 ∧ x1 < width) ∧ (y1 ≥ 0 ∧ y1 < height) then
        store px (toSizeT (y1 * width + x1)) ⟨255, 255, 255, 0⟩ else .ok px)
      = .ok (plotPoint width height px (x1, y1)) := by
  unfold plotPoint
  by_cases hin : (x1 ≥ 0 ∧ x1 < width) ∧ (y1 ≥ 0 ∧ y1 < height)
  · rw [if_pos hin, if_pos hin]
    obtain ⟨h0, h1⟩ := pixelIndex_lt width height x1 y1 hin.1.1 hin.1.2 hin.2.1 hin.2.2
    have e : toSizeT (y1 * width + x1) = (y1 * width + x1).toNat := by
      unfold toSizeT; omega
    have hlt : (y1 * width + x1).toNat < px.length := by omega
    simp only [store, e, hlt, if_true]
  · rw [if_neg hin, if_neg hin]

theorem plotPoint_length (width height : Int) (px : List Pixel) (p : Int × Int) :
    (plotPoint width height px p).length = px.length := by
  unfold plotPoint
  split
  · exact List.length_set _ _ _
  · rfl

theorem plotLoop_diag (width height sy : Int) (hWH : width * height ≤ 2147483647) :
    ∀ (k fuel : Nat) (x1 y1 : Int) (px : List Pixel) (visited : List (Int × Int)),
      k + 1 ≤ fuel → (px.length : Int) = width * height →
      plotLoop width height (x1 + k) (y1 + sy * k) 10 10 1 sy fuel x1 y1 0 px visited
        = .ok ((diagPoints sy k x1 y1).foldl (plotPoint width height) px,
            visited ++ diagPoints sy k x1 y1) := by
  intro k
  induction k with
  | zero =>
    intro fuel x1 y1 px visited hf hlen
    obtain ⟨f, rfl⟩ : ∃ f, fuel = f + 1 := ⟨fuel - 1, by omega⟩
    simp [plotLoop, plot_store_eq width height px x1 y1 hlen hWH, diagPoints]
  | succ k ih =>
    intro fuel x1 y1 px visited hf hlen
    obtain ⟨f, rfl⟩ : ∃ f, fuel = f + 1 := ⟨fuel - 1, by omega⟩
    have hne : ¬ (x1 = x1 + ((k + 1 : Nat) : Int) ∧ y1 = y1 + sy * ((k + 1 : Nat) : Int)) := by
      intro h; have := h.1; omega
    have hx : x1 + ((k + 1 : Nat) : Int) = x1 + 1 + (k : Int) := by push_cast; ring
    have hy : y1 + sy * ((k + 1 : Nat) : Int) = y1 + sy + sy * (k : Int) := by push_cast; ring
    have hstep := ih f (x1 + 1) (y1 + sy) (plotPoint width height px (x1, y1))
      (visited ++ [(x1, y1)]) (by omega) (by rw [plotPoint_length]; exact hlen)
    rw [plotLoop, plot_store_eq width height px x1 y1 hlen hWH]
    simp only [hne, if_false]
    rw [hx, hy]
    norm_num
    rw [hstep]
    simp [diagPoints]

theorem diagPoints_mem (sy : Int) :
    ∀ (k : Nat) (x y : Int) (p : Int × Int),
      p ∈ diagPoints sy k x y ↔ ∃ i : Nat, i ≤ k ∧ p = (x + i, y + sy * i) := by
  intro k
  induction k with
  | zero =>
    intro x y p
    simp only [diagPoints, List.mem_singleton]
    constructor
    · intro h; exact ⟨0, le_refl 0, by simp [h]⟩
    · rintro ⟨i, hi, rfl⟩
      have : i = 0 := by omega
      subst this; simp
  | succ k ih =>
    intro x y p
    simp only [diagPoints, List.mem_cons, ih]
    constructor
    · rintro (h | ⟨i, hi, rfl⟩)
      · exact ⟨0, by omega, by simp [h]⟩
      · exact ⟨i + 1, by omega, by push_cast; ext <;> simp <;> ring⟩
    · rintro ⟨i, hi, rfl⟩
      rcases Nat.eq_zero_or_pos i with h0 | hpos
      · subst h0; left; simp
      · right
        exact ⟨i - 1, by omega, by
          obtain ⟨j, rfl⟩ : ∃ j, i = j + 1 := ⟨i - 1, by omega⟩
          push_cast; ext <;> simp <;> ring⟩

theorem diagPoints_eq_map (sy : Int) :
    ∀ (k : Nat) (x y : Int),
      diagPoints sy k x y = (List.range (k + 1)).map (fun i : Nat => (x + (i : Int), y + sy * (i : Int))) := by
  intro k
  induction k with
  | zero => intro x y; simp [diagPoints, List.range_succ]
  | succ k ih =>
    intro x y
    rw [diagPoints, ih, List.range_succ_eq_map (k + 1), List.map_cons, List.map_map]
    simp only [Nat.cast_zero, add_zero, mul_zero, List.cons.injEq, true_and]
    apply List.map_congr_left
    intro i _
    simp only [Function.comp, Nat.succ_eq_add_one]
    push_cast
    ext <;> simp <;> ring

theorem foldl_plotPoint_length (width height : Int) :
    ∀ (pts : List (Int × Int)) (px : List Pixel),
      (pts.foldl (plotPoint width height) px).length = px.length := by
  intro pts
  induction pts with
  | nil => intro px; rfl
  | cons p rest ih => intro px; rw [List.foldl_cons, ih, plotPoint_length]

theorem foldl_plotPoint_frame (width height : Int) :
    ∀ (pts : List (Int × Int)) (px : List Pixel) (j : Nat),
      (∀ p ∈ pts, (p.1 ≥ 0 ∧ p.1 < width) ∧ (p.2 ≥ 0 ∧ p.2 < height) →
        (p.2 * width + p.1).toNat ≠ j) →
      (pts.foldl (plotPoint width height) px)[j]? = px[j]? := by
  intro pts
  induction pts with
  | nil => intro px j _; rfl
  | cons p rest ih =>
    intro px j h
    rw [List.foldl_cons, ih _ j (fun q hq => h q (List.mem_cons_of_mem _ hq))]
    unfold plotPoint
    split
    · rename_i hin
      rw [List.getElem?_set]
      have := h p (List.mem_cons_self _ _) hin
      simp [this]
    · rfl

theorem foldl_plotPoint_white (width height : Int) :
    ∀ (pts : List (Int × Int)) (px : List Pixel) (j : Nat), j < px.length →
      (∃ p ∈ pts, ((p.1 ≥ 0 ∧ p.1 < width) ∧ (p.2 ≥ 0 ∧ p.2 < height)) ∧
        (p.2 * width + p.1).toNat = j) →
      (pts.foldl (plotPoint width height) px)[j]? = some ⟨255, 255, 255, 0⟩ := by
  intro pts
  induction pts with
  | nil => intro px j _ h; obtain ⟨p, hp, _⟩ := h; cases hp
  | cons p rest ih =>
    intro px j hj h
    rw [List.foldl_cons]
    by_cases hrest : ∃ q ∈ rest, ((q.1 ≥ 0 ∧ q.1 < width) ∧ (q.2 ≥ 0 ∧ q.2 < height)) ∧
        (q.2 * width + q.1).toNat = j
    · exact ih _ j (by rw [plotPoint_length]; exact hj) hrest
    · obtain ⟨q, hq, hin, hidx⟩ := h
      rcases List.mem_cons.mp hq with heq | hmem
      · subst heq
        rw [foldl_plotPoint_frame width height rest _ j
          (fun r hr hrin hridx => hrest ⟨r, hr, hrin, hridx⟩)]
        unfold plotPoint
        rw [if_pos hin, hidx, List.getElem?_set]
        simp [hj]
      · exact absurd ⟨q, hmem, hin, hidx⟩ hrest

theorem drawX_eq (fuel : Nat) (x y : Int) (img : BMPImage) (hfuel : 11 ≤ fuel)
    (hlen : (img.pixels.length : Int) = img.width * img.height)
    (hWH : img.width * img.height ≤ 2147483647) :
    drawX fuel x y img
      = .ok ({ width := img.width, height := img.height,
               pixels := (diagPoints (-1) 10 x (y + 10)).foldl (plotPoint img.width img.height)
                 ((diagPoints 1 10 x y).foldl (plotPoint img.width img.height) img.pixels) },
             diagPoints 1 10 x y ++ diagPoints (-1) 10 x (y + 10)) := by
  have h1 := plotLoop_diag img.width img.height 1 hWH 10 fuel x y img.pixels [] (by omega) hlen
  have h2 := plotLoop_diag img.width img.height (-1) hWH 10 fuel x (y + 10)
    ((diagPoints 1 10 x y).foldl (plotPoint img.width img.height) img.pixels)
    (diagPoints 1 10 x y) (by omega) (by rw [foldl_plotPoint_length]; exact hlen)
  have e1 : y + 1 * ((10 : Nat) : Int) = y + 10 := by norm_num
  have e2 : y + 10 + -1 * ((10 : Nat) : Int) = y := by norm_num
  have e3 : x + ((10 : Nat) : Int) = x + 10 := by norm_num
  rw [e1, e3] at h1
  rw [e2, e3] at h2
  have a1 : |x + 10 - x| = (10 : Int) := by norm_num
  have a2 : |y + 10 - y| = (10 : Int) := by norm_num
  have a3 : |y - (y + 10)| = (10 : Int) := by norm_num
  have c1 : x < x + 10 := by omega
  have c2 : y < y + 10 := by omega
  have c3 : ¬ (y + 10 < y) := by omega
  simp only [drawX, plotLine, a1, a2, a3, c1, c2, c3, if_true, if_false, sub_self, h1, h2,
    List.nil_append]

theorem mem_cross (x y : Int) (p : Int × Int) :
    p ∈ diagPoints 1 10 x y ++ diagPoints (-1) 10 x (y + 10) ↔ onCross x y p.1 p.2 := by
  rw [List.mem_append, diagPoints_mem, diagPoints_mem]
  unfold onCross
  constructor
  · rintro (⟨i, hi, rfl⟩ | ⟨i, hi, rfl⟩)
    · exact ⟨i, hi, rfl, Or.inl (by simp)⟩
    · exact ⟨i, hi, rfl, Or.inr (by simp; ring)⟩
  · rintro ⟨i, hi, hx, hy | hy⟩
    · left; exact ⟨i, hi, by ext <;> simp [hx, hy]⟩
    · right; exact ⟨i, hi, by ext <;> simp [hx, hy]; ring⟩

theorem drawX_pixels (fuel : Nat) (x y : Int) (img : BMPImage) (hfuel : 11 ≤ fuel)
    (hlen : (img.pixels.length : Int) = img.width * img.height)
    (hWH : img.width * img.height ≤ 2147483647) :
    ∃ px, drawX fuel x y img
        = .ok ({ width := img.width, height := img.height, pixels := px },
            diagPoints 1 10 x y ++ diagPoints (-1) 10 x (y + 10))
      ∧ px.length = img.pixels.length
      ∧ ∀ qx qy : Int, 0 ≤ qx → qx < img.width → 0 ≤ qy → qy < img.height →
          (onCross x y qx qy → px[(qy * img.width + qx).toNat]? = some ⟨255, 255, 255, 0⟩)
          ∧ (¬ onCross x y qx qy →
              px[(qy * img.width + qx).toNat]? = img.pixels[(qy * img.width + qx).toNat]?) := by
  refine ⟨_, drawX_eq fuel x y img hfuel hlen hWH, ?_, ?_⟩
  · rw [foldl_plotPoint_length, foldl_plotPoint_length]
  · intro qx qy hx0 hx1 hy0 hy1
    rw [← List.foldl_append]
    obtain ⟨hi0, hi1⟩ := pixelIndex_lt img.width img.height qx qy hx0 hx1 hy0 hy1
    constructor
    · intro hon
      apply foldl_plotPoint_white
      · omega
      · exact ⟨(qx, qy), (mem_cross x y (qx, qy)).mpr hon, ⟨⟨hx0, hx1⟩, ⟨hy0, hy1⟩⟩, rfl⟩
    · intro hoff
      apply foldl_plotPoint_frame
      intro p hp hin hidx
      apply hoff
      obtain ⟨hp0, _⟩ := pixelIndex_lt img.width img.height p.1 p.2 hin.1.1 hin.1.2 hin.2.1
        hin.2.2
      have heq : p.2 * img.width + p.1 = qy * img.width + qx := by omega
      obtain ⟨e1, e2⟩ := pixelIndex_inj img.width p.1 p.2 qx qy hin.1.1 hin.1.2 hx0 hx1 heq
      rw [← e1, ← e2]
      exact (mem_cross x y p).mp hp

theorem printRow_eq (pixels : List Pixel) (W y : Nat)
    (hb : pixels.length < 18446744073709551616) :
    ∀ (n x : Nat) (out : List Char), y * W + x + n ≤ pixels.length →
      printRow pixels (W : Int) y n x out
        = .ok (out ++ (List.range' x n).map
            (fun c => glyph (pixels.getD (y * W + c) ⟨0, 0, 0, 0⟩))) := by
  intro n
  induction n with
  | zero => intro x out _; simp [printRow]
  | succ n ih =>
    intro x out hlen
    have hlt : y * W + x < pixels.length := by omega
    have hidx : toSizeT ((y : Int) * (W : Int) + (x : Int)) = y * W + x := by
      have : (y : Int) * (W : Int) + (x : Int) = ((y * W + x : Nat) : Int) := by push_cast; rfl
      rw [this]; exact toSizeT_natCast _ (by omega)
    have hg : pixels.getD (y * W + x) ⟨0, 0, 0, 0⟩ = pixels[y * W + x] :=
      List.getD_eq_getElem _ _ hlt
    rw [printRow, hidx, List.getElem?_eq_getElem hlt]
    simp only []
    rw [List.range'_succ, List.map_cons, hg]
    have hrec := fun o => ih (x + 1) o (by omega)
    by_cases h1 : pixels[y * W + x].r = 0 ∧ pixels[y * W + x].g = 0 ∧ pixels[y * W + x].b = 0
    · have hgl : glyph pixels[y * W + x] = '#' := by rw [glyph, if_pos h1]
      rw [if_pos h1, hrec, hgl]; simp
    · by_cases h2 : pixels[y * W + x].r = 255 ∧ pixels[y * W + x].g = 255
          ∧ pixels[y * W + x].b = 255
      · have hgl : glyph pixels[y * W + x] = ' ' := by rw [glyph, if_neg h1, if_pos h2]
        rw [if_neg h1, if_pos h2, hrec, hgl]; simp
      · have hgl : glyph pixels[y * W + x] = '?' := by rw [glyph, if_neg h1, if_neg h2]
        rw [if_neg h1, if_neg h2, hrec, hgl]; simp

theorem printRows_eq (img : BMPImage) (W H : Nat) (hw : img.width = (W : Int))
    (hpx : img.pixels.length = W * H) (hb : W * H < 18446744073709551616) :
    ∀ (n y : Nat) (out : List Char), y + n ≤ H →
      printRows img n y out
        = .ok (out ++ (List.range' y n).flatMap (fun r =>
            (List.range W).map (fun c => glyph (img.pixels.getD (r * W + c) ⟨0, 0, 0, 0⟩))
              ++ ['\n'])) := by
  intro n
  induction n with
  | zero => intro y out _; simp [printRows]
  | succ n ih =>
    intro y out hy
    have hrow : y * W + 0 + W ≤ img.pixels.length := by
      have h1 : (y + 1) * W ≤ H * W := Nat.mul_le_mul_right W (by omega)
      rw [Nat.succ_mul, Nat.mul_comm H W] at h1
      omega
    rw [printRows, hw, Int.toNat_ofNat,
      printRow_eq img.pixels W y (by omega) W 0 out hrow]
    simp only []
    rw [ih (y + 1) _ (by omega), List.range'_succ, List.flatMap_cons, List.range_eq_range']
    simp

theorem loadRow_total (u : Uninit) (bitCount : Nat) (width height : Int) (y base W : Nat)
    (hidx : ∀ x, x < W → toSizeT ((height - y - 1) * width + x) = base + x) :
    ∀ (n x : Nat) (s : IStream) (px : List Pixel), x + n ≤ W → base + W ≤ px.length →
      ∃ s1 px1, loadRow u bitCount width height y n x s px = .ok (s1, px1)
        ∧ px1.length = px.length := by
  intro n
  induction n with
  | zero => intro x s px _ _; exact ⟨s, px, rfl, rfl⟩
  | succ n ih =>
    intro x s px hx hpx
    have hlt : base + x < px.length := by omega
    simp only [loadRow, hidx x (by omega), store, hlt, if_true]
    obtain ⟨s1, px1, h1, h2⟩ := ih (x + 1)
      (if bitCount = 32 then
          (((s.read1 (u.pixel y x).b).2.read1 (u.pixel y x).g).2.read1 (u.pixel y x).r).2.read1
            (u.pixel y x).a
        else (255, (((s.read1 (u.pixel y x).b).2.read1 (u.pixel y x).g).2.read1
            (u.pixel y x).r).2)).2
      (px.set (base + x)
        ⟨(((s.read1 (u.pixel y x).b).2.read1 (u.pixel y x).g).2.read1 (u.pixel y x).r).1,
          ((s.read1 (u.pixel y x).b).2.read1 (u.pixel y x).g).1,
          (s.read1 (u.pixel y x).b).1,
          (if bitCount = 32 then
              (((s.read1 (u.pixel y x).b).2.read1 (u.pixel y x).g).2.read1
                (u.pixel y x).r).2.read1 (u.pixel y x).a
            else (255, (((s.read1 (u.pixel y x).b).2.read1 (u.pixel y x).g).2.read1
                (u.pixel y x).r).2)).1⟩)
      (by omega) (by rw [List.length_set]; exact hpx)
    rw [List.length_set] at h2
    exact ⟨s1, px1, h1, h2⟩

theorem loadRows_total (u : Uninit) (bitCount bfOffBits rowSize W H : Nat)
    (hWH : W * H < 18446744073709551616) :
    ∀ (n y : Nat) (s : IStream) (px : List Pixel), y + n = H → px.length = W * H →
      ∃ s1 px1, loadRows u bitCount bfOffBits rowSize W H n y s px = .ok (s1, px1)
        ∧ px1.length = px.length := by
  intro n
  induction n with
  | zero => intro y s px _ _; exact ⟨s, px, rfl, rfl⟩
  | succ n ih =>
    intro y s px hy hpx
    have hyH : y < H := by omega
    have hrowW : (H - 1 - y) * W + W ≤ W * H := by
      have h1 : (H - 1 - y + 1) * W ≤ H * W := Nat.mul_le_mul_right W (by omega)
      rw [Nat.succ_mul, Nat.mul_comm H W] at h1
      exact h1
    obtain ⟨s1, px1, h1, h2⟩ := loadRow_total u bitCount W H y ((H - 1 - y) * W) W
      (fun x hx => rowIndex_eq W H y x hyH hx hWH) W 0 (s.seekg (bfOffBits + y * rowSize)) px
      (by omega) (by omega)
    obtain ⟨s2, px2, g1, g2⟩ := ih (y + 1)
      (s1.seekgCur (toSizeT ((rowSize : Int) - ((bitCount / 8 : Nat) : Int) * (W : Int)))) px1
      (by omega) (by omega)
    refine ⟨s2, px2, ?_, by omega⟩
    simp only [loadRows, Int.toNat_ofNat, h1, g1]

theorem load_accepts (u : Uninit) (data : List Byte) (img : BMPImage) (W H : Nat)
    (h54 : 54 ≤ data.length)
    (hsig : (BMPHeader.ofBytes (fileMem data 0)).bfType = 0x4D42)
    (hbc : (DIBHeader.ofBytes (fileMem data 14)).biBitCount = 24
      ∨ (DIBHeader.ofBytes (fileMem data 14)).biBitCount = 32)
    (hw : (DIBHeader.ofBytes (fileMem data 14)).biWidth = (W : Int))
    (hh : (DIBHeader.ofBytes (fileMem data 14)).biHeight = (H : Int))
    (hWH : W * H ≤ 2147483647) :
    ∃ px, load u (some data) img = .ok (true, { width := W, height := H, pixels := px })
      ∧ px.length = W * H := by
  have hr1 := read_good (IStream.ofFile data) 14 u.bmpHeader rfl
    (by show 0 + 14 ≤ data.length; omega)
  have hr2 := read_good ⟨data, 0 + 14, false⟩ 40 u.dibHeader rfl
    (by show 0 + 14 + 40 ≤ data.length; omega)
  simp only [IStream.ofFile] at hr1
  simp only [] at hr2
  have hprod : ¬ ((W : Int) * (H : Int) < 0) := by
    have : (0 : Int) ≤ (W : Int) * (H : Int) := by positivity
    omega
  have hres : (resize img.pixels (toSizeT ((W : Int) * (H : Int)))).length = W * H := by
    have : toSizeT ((W : Int) * (H : Int)) = W * H := by
      rw [← Nat.cast_mul]; exact toSizeT_natCast _ (by omega)
    rw [this]
    simp [resize]
    omega
  obtain ⟨s1, px1, g1, g2⟩ := loadRows_total u
    (DIBHeader.ofBytes (fileMem data 14)).biBitCount
    (BMPHeader.ofBytes (fileMem data 0)).bfOffBits
    (toSizeT (((((DIBHeader.ofBytes (fileMem data 14)).biBitCount : Nat) : Int) * (W : Int)
      + 31).tdiv 32 * 4)) W H (by omega) H 0
    ((IStream.mk data (0 + 14 + 40) false).seekg (BMPHeader.ofBytes (fileMem data 0)).bfOffBits)
    (resize img.pixels (toSizeT ((W : Int) * (H : Int)))) (by omega) hres
  refine ⟨px1, ?_, by omega⟩
  have hbne : ¬ ((DIBHeader.ofBytes (fileMem data 14)).biBitCount ≠ 24
      ∧ (DIBHeader.ofBytes (fileMem data 14)).biBitCount ≠ 32) := by
    rcases hbc with h | h <;> simp [h]
  simp only [load, IStream.ofFile, hr1, bmpHeader_ofBytes_read, hr2, dibHeader_ofBytes_read]
  rw [if_neg (by rw [hsig]; exact fun h => h rfl), if_neg hbne]
  simp only [hw, hh, if_neg hprod, Int.toNat_ofNat, g1]

theorem load_false_unchanged (u : Uninit) (file : Option (List Byte)) (img0 img : BMPImage)
    (h : load u file img0 = .ok (false, img)) : img = img0 := by
  unfold load at h
  cases file with
  | none =>
    simp only [Except.ok.injEq, Prod.mk.injEq, true_and] at h
    exact h.symm
  | some data =>
    simp only [] at h
    split at h
    · simp only [Except.ok.injEq, Prod.mk.injEq, true_and] at h
      exact h.symm
    · split at h
      · simp only [Except.ok.injEq, Prod.mk.injEq, true_and] at h
        exact h.symm
      · split at h
        · cases h
        · split at h
          · cases h
          · simp at h

theorem load_true_length (u : Uninit) (file : Option (List Byte)) (img0 img : BMPImage)
    (h : load u file img0 = .ok (true, img)) (hw : 1 ≤ img.width) (hh : 1 ≤ img.height)
    (hWH : img.width * img.height ≤ 2147483647) :
    (img.pixels.length : Int) = img.width * img.height := by
  unfold load at h
  cases file with
  | none => simp at h
  | some data =>
    simp only [] at h
    split at h
    · simp at h
    · split at h
      · simp at h
      · split at h
        · cases h
        · rename_i hprod
          split at h
          · cases h
          · rename_i r hr
            simp only [Except.ok.injEq, Prod.mk.injEq, true_and] at h
            subst h
            simp only [] at hw hh hWH hprod ⊢
            generalize (DIBHeader.ofBytes
              ((IStream.read ((IStream.ofFile data).read 14 u.bmpHeader).2 40 u.dibHeader).1)).biWidth
              = w at hr hw hWH hprod ⊢
            generalize (DIBHeader.ofBytes
              ((IStream.read ((IStream.ofFile data).read 14 u.bmpHeader).2 40 u.dibHeader).1)).biHeight
              = hgt at hr hh hWH hprod ⊢
            lift w to ℕ using (by omega)
            lift hgt to ℕ using (by omega)
            have hb : w * hgt ≤ 2147483647 := by exact_mod_cast hWH
            have hsz : toSizeT ((w : Int) * (hgt : Int)) = w * hgt := by
              rw [← Nat.cast_mul]; exact toSizeT_natCast _ (by omega)
            have hres : (resize img0.pixels (w * hgt)).length = w * hgt := by
              simp [resize]; omega
            rw [hsz, Int.toNat_ofNat] at hr
            obtain ⟨s1, px1, g1, g2⟩ := loadRows_total u _ _ _ w hgt (by omega) hgt 0 _
              (resize img0.pixels (w * hgt)) (by omega) hres
            rw [g1] at hr
            cases hr
            simp only []
            rw [g2, hres]
            push_cast
            rfl

theorem plotLoop_length (width height x2 y2 dx dy sx sy : Int) :
    ∀ (fuel : Nat) (x1 y1 err : Int) (px : List Pixel) (visited : List (Int × Int))
      (r : List Pixel × List (Int × Int)),
      plotLoop width height x2 y2 dx dy sx sy fuel x1 y1 err px visited = .ok r →
      r.1.length = px.length := by
  intro fuel
  induction fuel with
  | zero => intro x1 y1 err px visited r h; simp [plotLoop] at h
  | succ fuel ih =>
    intro x1 y1 err px visited r h
    rw [plotLoop] at h
    have hstore : ∀ q, (if (x1 ≥ 0 ∧ x1 < width) ∧ (y1 ≥ 0 ∧ y1 < height) then
        store px (toSizeT (y1 * width + x1)) ⟨255, 255, 255, 0⟩ else .ok px) = .ok q →
        q.length = px.length := by
      intro q hq
      split at hq
      · unfold store at hq
        split at hq
        · cases hq; exact List.length_set _ _ _
        · cases hq
      · cases hq; rfl
    cases hs : (if (x1 ≥ 0 ∧ x1 < width) ∧ (y1 ≥ 0 ∧ y1 < height) then
        store px (toSizeT (y1 * width + x1)) ⟨255, 255, 255, 0⟩ else .ok px) with
    | error e => rw [hs] at h; cases h
    | ok q =>
      rw [hs] at h
      simp only [] at h
      have hq := hstore q hs
      split at h
      · cases h; exact hq
      · rw [ih _ _ _ _ _ _ h, hq]

theorem plotLine_preserves (fuel : Nat) (img : BMPImage) (visited : List (Int × Int))
    (x1 y1 x2 y2 : Int) (r : BMPImage × List (Int × Int))
    (h : plotLine fuel img visited x1 y1 x2 y2 = .ok r) :
    r.1.width = img.width ∧ r.1.height = img.height
      ∧ r.1.pixels.length = img.pixels.length := by
  unfold plotLine at h
  simp only [] at h
  split at h
  · cases h
  · rename_i q hq
    cases h
    exact ⟨rfl, rfl, plotLoop_length _ _ _ _ _ _ _ _ _ _ _ _ _ _ _ hq⟩

theorem drawX_preserves (fuel : Nat) (x y : Int) (img : BMPImage)
    (r : BMPImage × List (Int × Int)) (h : drawX fuel x y img = .ok r) :
    r.1.width = img.width ∧ r.1.height = img.height
      ∧ r.1.pixels.length = img.pixels.length := by
  unfold drawX at h
  split at h
  · cases h
  · rename_i q hq
    obtain ⟨a1, a2, a3⟩ := plotLine_preserves fuel img [] x y (x + 10) (y + 10) q hq
    obtain ⟨b1, b2, b3⟩ := plotLine_preserves fuel q.1 q.2 x (y + 10) (x + 10) y r h
    exact ⟨by rw [b1, a1], by rw [b2, a2], by rw [b3, a3]⟩

theorem load_rejects (u : Uninit) (data : List Byte) (img : BMPImage) (h54 : 54 ≤ data.length)
    (h : ¬ ((BMPHeader.ofBytes (fileMem data 0)).bfType = 0x4D42
      ∧ ((DIBHeader.ofBytes (fileMem data 14)).biBitCount = 24
        ∨ (DIBHeader.ofBytes (fileMem data 14)).biBitCount = 32))) :
    load u (some data) img = .ok (false, img) := by
  have hr1 := read_good (IStream.ofFile data) 14 u.bmpHeader rfl
    (by show 0 + 14 ≤ data.length; omega)
  have hr2 := read_good ⟨data, 0 + 14, false⟩ 40 u.dibHeader rfl
    (by show 0 + 14 + 40 ≤ data.length; omega)
  simp only [IStream.ofFile] at hr1
  simp only [] at hr2
  simp only [load, IStream.ofFile, hr1, bmpHeader_ofBytes_read, hr2, dibHeader_ofBytes_read]
  by_cases hs : (BMPHeader.ofBytes (fileMem data 0)).bfType ≠ 19778
  · rw [if_pos hs]
  · have hs2 : (BMPHeader.ofBytes (fileMem data 0)).bfType = 19778 := by omega
    have hb : (DIBHeader.ofBytes (fileMem data 14)).biBitCount ≠ 24
        ∧ (DIBHeader.ofBytes (fileMem data 14)).biBitCount ≠ 32 := by
      constructor
      · intro hb; exact h ⟨hs2, Or.inl hb⟩
      · intro hb; exact h ⟨hs2, Or.inr hb⟩
    rw [if_neg hs, if_pos hb]

theorem byteAt_blackBitmap (W H j : Nat) (hj : 54 ≤ j) : byteAt (blackBitmap W H) j = 0 := by
  unfold byteAt blackBitmap
  rw [List.getD_eq_getElem?_getD,
    List.getElem?_append_right (by rw [savedHeader_length]; exact hj), List.getElem?_replicate]
  split <;> rfl

theorem render_head (W H : Nat) (hW : 1 ≤ W) (hH : 1 ≤ H) (f : Nat → Nat → Char) (c : Char) :
    ((List.range H).flatMap (fun y => (List.range W).map (fun x => f y x) ++ [c]))[0]?
      = some (f 0 0) := by
  obtain ⟨h, rfl⟩ : ∃ h, H = h + 1 := ⟨H - 1, by omega⟩
  obtain ⟨w, rfl⟩ : ∃ w, W = w + 1 := ⟨W - 1, by omega⟩
  rw [List.range_succ_eq_map h, List.flatMap_cons, List.range_succ_eq_map w, List.map_cons]
  simp only [List.cons_append, List.getElem?_cons_zero]

theorem load_blackBitmap (u : Uninit) (img0 : BMPImage) (W H : Nat) (hW : 1 ≤ W)
    (hrow : 24 * W + 31 ≤ 2147483647) (hsize : ((24 * W + 31) / 32) * 4 * H ≤ 2147483647) :
    load u (some (blackBitmap W H)) img0
      = .ok (true, { width := W, height := H,
                     pixels := List.replicate (W * H) ⟨0, 0, 0, 255⟩ }) := by
  have hWr : W ≤ 2147483647 := by omega
  have hWS : W ≤ ((24 * W + 31) / 32) * 4 := by omega
  have hWH : W * H ≤ 2147483647 := le_trans (Nat.mul_le_mul_right H hWS) hsize
  have hHr : H ≤ 2147483647 := by
    have : 1 * H ≤ W * H := Nat.mul_le_mul_right H hW
    omega
  have hlenB : (blackBitmap W H).length = 54 + ((24 * W + 31) / 32) * 4 * H := by
    simp [blackBitmap, savedHeader_length, stride24]
  have hd : ∀ j, j < 54 → (blackBitmap W H)[j]? = (savedHeader W H)[j]? := by
    intro j hj
    unfold blackBitmap
    rw [List.getElem?_append_left (by rw [savedHeader_length]; exact hj)]
  obtain ⟨f1, f2, f3, f4, f5⟩ := savedHeader_fields (blackBitmap W H) W H hWr hHr hd
  obtain ⟨px, l1, l2, l3⟩ := load_good u (blackBitmap W H) img0 W H 24 54 (by omega) f1 f2 f3
    f4 f5 (Or.inl rfl) hWH (by rw [hlenB, Nat.mul_comm H])
  rw [l1]
  have hpx : px = List.replicate (W * H) ⟨0, 0, 0, 255⟩ := by
    apply List.ext_getElem?
    intro i
    rw [List.getElem?_replicate]
    by_cases hi : i < W * H
    · rw [if_pos hi]
      have hx : i % W < W := Nat.mod_lt _ hW
      have hr : i / W < H := Nat.div_lt_of_lt_mul hi
      have hi2 : i / W * W + i % W = i := Nat.div_add_mod' i W
      generalize i / W = r at hr hi2
      generalize i % W = x at hx hi2
      have := l3 r x hr hx
      rw [hi2] at this
      rw [this]
      simp only [pixelAt]
      rw [byteAt_blackBitmap W H _ (by omega), byteAt_blackBitmap W H _ (by omega),
        byteAt_blackBitmap W H _ (by omega)]
      simp
    · rw [if_neg hi]
      exact List.getElem?_eq_none (by omega)
  rw [hpx]

theorem saveRow_congr (px1 px2 : List Pixel) (rowStartPos : Nat)
    (hl : px1.length = px2.length)
    (hc : ∀ (i : Nat) (p q : Pixel), px1[i]? = some p → px2[i]? = some q → p.r = q.r ∧ p.g = q.g ∧ p.b = q.b) :
    ∀ (n x : Nat) (out : List Byte),
      saveRow px1 rowStartPos n x out = saveRow px2 rowStartPos n x out := by
  intro n
  induction n with
  | zero => intro x out; rfl
  | succ n ih =>
    intro x out
    rw [saveRow, saveRow]
    by_cases hlt : rowStartPos + x < px1.length
    · have hlt2 : rowStartPos + x < px2.length := by omega
      obtain ⟨e1, e2, e3⟩ := hc (rowStartPos + x) _ _ (List.getElem?_eq_getElem hlt)
        (List.getElem?_eq_getElem hlt2)
      rw [List.getElem?_eq_getElem hlt, List.getElem?_eq_getElem hlt2]
      simp only []
      rw [e1, e2, e3]
      exact ih _ _
    · rw [List.getElem?_eq_none (by omega), List.getElem?_eq_none (by omega)]

theorem saveRows_congr (img1 img2 : BMPImage) (rowSize : Int) (hw : img2.width = img1.width)
    (hl : img1.pixels.length = img2.pixels.length)
    (hc : ∀ (i : Nat) (p q : Pixel), img1.pixels[i]? = some p → img2.pixels[i]? = some q →
      p.r = q.r ∧ p.g = q.g ∧ p.b = q.b) :
    ∀ (n : Nat) (y : Int) (out : List Byte),
      saveRows img1 rowSize n y out = saveRows img2 rowSize n y out := by
  intro n
  induction n with
  | zero => intro y out; rfl
  | succ n ih =>
    intro y out
    rw [saveRows, saveRows, hw, saveRow_congr img1.pixels img2.pixels _ hl hc]
    cases saveRow img2.pixels (toSizeT (y * img1.width)) img1.width.toNat 0 out with
    | error e => rfl
    | ok out1 => exact ih _ _

theorem saveBytes_congr (img1 img2 : BMPImage) (hw : img2.width = img1.width)
    (hh : img2.height = img1.height) (hl : img1.pixels.length = img2.pixels.length)
    (hc : ∀ (i : Nat) (p q : Pixel), img1.pixels[i]? = some p → img2.pixels[i]? = some q →
      p.r = q.r ∧ p.g = q.g ∧ p.b = q.b) :
    saveBytes img1 = saveBytes img2 := by
  unfold saveBytes
  simp only [hw, hh]
  exact saveRows_congr img1 img2 _ hw hl hc _ _ _

theorem plotPoint_valid (width height : Int) (px : List Pixel) (pt : Int × Int)
    (h : ∀ p ∈ px, isValidColor p = true) :
    ∀ p ∈ plotPoint width height px pt, isValidColor p = true := by
  intro p hp
  unfold plotPoint at hp
  split at hp
  · rcases List.mem_or_eq_of_mem_set hp with hm | he
    · exact h p hm
    · subst he; rfl
  · exact h p hp

theorem foldl_plotPoint_valid (width height : Int) :
    ∀ (pts : List (Int × Int)) (px : List Pixel), (∀ p ∈ px, isValidColor p = true) →
      ∀ p ∈ pts.foldl (plotPoint width height) px, isValidColor p = true := by
  intro pts
  induction pts with
  | nil => intro px h; exact h
  | cons pt rest ih =>
    intro px h
    rw [List.foldl_cons]
    exact ih _ (plotPoint_valid width height px pt h)

theorem glyph_question_iff (p : Pixel) : glyph p = '?' ↔ isValidColor p = false := by
  unfold glyph isValidColor
  by_cases h1 : p.r = 0 ∧ p.g = 0 ∧ p.b = 0
  · rw [if_pos h1]
    simp [h1.1, h1.2.1, h1.2.2]
  · rw [if_neg h1]
    by_cases h2 : p.r = 255 ∧ p.g = 255 ∧ p.b = 255
    · rw [if_pos h2]
      simp [h2.1, h2.2.1, h2.2.2]
    · rw [if_neg h2]
      simp only [true_iff]
      have e1 : (decide (p.r = 0) && decide (p.g = 0) && decide (p.b = 0)) = false := by
        rw [Bool.eq_false_iff]
        intro hc
        simp only [Bool.and_eq_true, decide_eq_true_eq] at hc
        exact h1 ⟨hc.1.1, hc.1.2, hc.2⟩
      have e2 : (decide (p.r = 255) && decide (p.g = 255) && decide (p.b = 255)) = false := by
        rw [Bool.eq_false_iff]
        intro hc
        simp only [Bool.and_eq_true, decide_eq_true_eq] at hc
        exact h2 ⟨hc.1.1, hc.1.2, hc.2⟩
      rw [e1, e2]
      rfl

theorem render_no_question (W H : Nat) (px : List Pixel) (hpx : px.length = W * H)
    (h : ∀ p ∈ px, isValidColor p = true) :
    '?' ∉ (List.range H).flatMap (fun r =>
      (List.range W).map (fun c => glyph (px.getD (r * W + c) ⟨0, 0, 0, 0⟩)) ++ ['\n']) := by
  intro hm
  rw [List.mem_flatMap] at hm
  obtain ⟨r, hr, hm⟩ := hm
  rw [List.mem_range] at hr
  rw [List.mem_append] at hm
  rcases hm with hm | hm
  · rw [List.mem_map] at hm
    obtain ⟨c, hc, hg⟩ := hm
    rw [List.mem_range] at hc
    have hidx : r * W + c < px.length := by
      have h1 : (r + 1) * W ≤ H * W := Nat.mul_le_mul_right W (by omega)
      rw [Nat.succ_mul, Nat.mul_comm H W] at h1
      omega
    rw [List.getD_eq_getElem _ _ hidx] at hg
    have hv := h _ (List.getElem_mem hidx)
    rw [(glyph_question_iff _).mp hg] at hv
    cases hv
  · simp at hm

theorem loadRows_pos (u : Uninit) (bitCount bfOffBits rowSize W H : Nat) (data : List Byte)
    (hb : bitCount = 24 ∨ bitCount = 32) (hWH : W * H < 18446744073709551616)
    (hrow : W * (bitCount / 8) ≤ rowSize) (hrs : rowSize < 18446744073709551616) :
    ∀ (n y : Nat) (s : IStream) (px : List Pixel), s.failed = false → s.data = data →
      y + (n + 1) ≤ H → px.length = W * H →
      bfOffBits + (y + (n + 1)) * rowSize ≤ data.length →
      ∃ px1, loadRows u bitCount bfOffBits rowSize W H (n + 1) y s px
          = .ok (⟨data, bfOffBits + (y + (n + 1)) * rowSize, false⟩, px1)
        ∧ px1.length = px.length := by
  have hpad : toSizeT ((rowSize : Int) - ((bitCount / 8 : Nat) : Int) * (W : Int))
      = rowSize - W * (bitCount / 8) := by
    unfold toSizeT
    rcases hb with rfl | rfl <;> omega
  have hstep : ∀ (y : Nat) (s : IStream) (px : List Pixel), s.failed = false → s.data = data →
      y < H → px.length = W * H → bfOffBits + (y + 1) * rowSize ≤ data.length →
      ∃ px1, loadRow u bitCount W H y W 0 (s.seekg (bfOffBits + y * rowSize)) px
          = .ok (⟨data, bfOffBits + y * rowSize + W * (bitCount / 8), false⟩, px1)
        ∧ px1.length = px.length
        ∧ (IStream.mk data (bfOffBits + y * rowSize + W * (bitCount / 8)) false).seekgCur
            (toSizeT ((rowSize : Int) - ((bitCount / 8 : Nat) : Int) * (W : Int)))
          = ⟨data, bfOffBits + (y + 1) * rowSize, false⟩ := by
    intro y s px hf hd hyH hpx hlen
    have hsm : (y + 1) * rowSize = y * rowSize + rowSize := Nat.succ_mul _ _
    have hbase : (H - 1 - y) * W + W ≤ W * H := by
      have h1 : (H - 1 - y + 1) * W ≤ H * W := Nat.mul_le_mul_right W (by omega)
      rw [Nat.succ_mul, Nat.mul_comm H W] at h1
      exact h1
    have hsk : s.seekg (bfOffBits + y * rowSize) = ⟨data, bfOffBits + y * rowSize, false⟩ := by
      cases s; simp_all [IStream.seekg]
    obtain ⟨px1, h1, h2, _, _⟩ := loadRow_good u bitCount W H y ((H - 1 - y) * W) hb W
      (fun x hx => rowIndex_eq W H y x hyH hx hWH) W 0 ⟨data, bfOffBits + y * rowSize, false⟩ px rfl
      (by show bfOffBits + y * rowSize + W * (bitCount / 8) ≤ data.length; omega) (by omega)
      (by omega)
    simp only [] at h1
    refine ⟨px1, by rw [hsk]; exact h1, h2, ?_⟩
    rw [hpad]
    simp only [IStream.seekgCur, Bool.false_eq_true, if_false, IStream.mk.injEq, and_true,
      true_and]
    omega
  intro n
  induction n with
  | zero =>
    intro y s px hf hd hy hpx hlen
    obtain ⟨px1, h1, h2, h3⟩ := hstep y s px hf hd (by omega) hpx hlen
    refine ⟨px1, ?_, h2⟩
    simp only [loadRows, Int.toNat_ofNat, h1, h3]
  | succ n ih =>
    intro y s px hf hd hy hpx hlen
    have hle : (y + 1) * rowSize ≤ (y + (n + 1 + 1)) * rowSize :=
      Nat.mul_le_mul_right rowSize (by omega)
    obtain ⟨px1, h1, h2, h3⟩ := hstep y s px hf hd (by omega) hpx (by omega)
    have e : y + 1 + (n + 1) = y + (n + 1 + 1) := by omega
    obtain ⟨px2, g1, g2⟩ := ih (y + 1) ⟨data, bfOffBits + (y + 1) * rowSize, false⟩ px1 rfl rfl
      (by omega) (by omega) (by rw [e]; exact hlen)
    rw [e] at g1
    refine ⟨px2, ?_, by omega⟩
    rw [loadRows]
    simp only [Int.toNat_ofNat, h1, h3]
    exact g1

theorem saveBytes_eq_saveRows (img : BMPImage) (W H : Nat) (hw : img.width = (W : Int))
    (hh : img.height = (H : Int)) (hSH : stride24 W * H < 18446744073709551616) :
    saveBytes img
      = saveRows img ((((24 * W + 31) / 32) * 4 : Nat) : Int) H ((H : Int) - 1)
          (savedHeader W H) := by
  have hsz : toSizeT ((((24 * W + 31) / 32 * 4 : Nat) : Int) * (H : Int)) = stride24 W * H := by
    rw [← Nat.cast_mul]; exact toSizeT_natCast _ hSH
  simp only [saveBytes, hw, hh, save_rowSize_eq, Int.toNat_ofNat, hsz]
  rfl

/-- C1 (round trip).  For a `W` by `H` buffer, `W, H ≥ 1`, with `pixels.length = W * H` whose
row size and pixel data size stay within the 32-bit range, `save` succeeds and `load`
applied to the bytes it wrote succeeds and yields width `W`, height `H` and, at every
index, the red, green and blue of the saved pixel with alpha 255.  The result depends
neither on the image `img0` loaded into nor on the uninitialised locals `u`. -/
theorem save_load_roundtrip (u : Uninit) (img img0 : BMPImage) (W H : Nat)
    (hW : 1 ≤ W) (_hH : 1 ≤ H)
    (hw : img.width = (W : Int)) (hh : img.height = (H : Int))
    (hpx : img.pixels.length = W * H)
    (hrow : 24 * W + 31 ≤ 2147483647) (hsize : ((24 * W + 31) / 32) * 4 * H ≤ 2147483647) :
    ∃ bytes px, save true img = .ok (true, some bytes)
      ∧ load u (some bytes) img0 = .ok (true, { width := W, height := H, pixels := px })
      ∧ px.length = W * H
      ∧ ∀ i, i < W * H → ∃ p, img.pixels[i]? = some p ∧ px[i]? = some ⟨p.r, p.g, p.b, 255⟩ := by
  have hWr : W ≤ 2147483647 := by omega
  have hWS : W ≤ ((24 * W + 31) / 32) * 4 := by omega
  have hWH : W * H ≤ 2147483647 := le_trans (Nat.mul_le_mul_right H hWS) hsize
  have hHr : H ≤ 2147483647 := by
    have : 1 * H ≤ W * H := Nat.mul_le_mul_right H hW
    omega
  obtain ⟨bytes, s1, s2, s3, s4, _⟩ := saveBytes_good img W H hw hh hpx hWr hHr
  obtain ⟨f1, f2, f3, f4, f5⟩ := savedHeader_fields bytes W H hWr hHr s3
  obtain ⟨px, l1, l2, l3⟩ := load_good u bytes img0 W H 24 54 (by omega) f1 f2 f3 f4 f5
    (Or.inl rfl) hWH (by unfold stride24 at s2; omega)
  refine ⟨bytes, px, by simp [save, s1], l1, l2, ?_⟩
  intro i hi
  have hx : i % W < W := Nat.mod_lt _ hW
  have hr : i / W < H := Nat.div_lt_of_lt_mul hi
  have hi2 : i / W * W + i % W = i := Nat.div_add_mod' i W
  generalize i / W = r at hr hi2
  generalize i % W = x at hx hi2
  have hlt : i < img.pixels.length := by omega
  refine ⟨img.pixels[i], List.getElem?_eq_getElem hlt, ?_⟩
  have hp : img.pixels[(H - 1 - (H - 1 - r)) * W + x]? = some img.pixels[i] := by
    have : H - 1 - (H - 1 - r) = r := by omega
    rw [this]
    simp only [hi2]
    exact List.getElem?_eq_getElem hlt
  obtain ⟨c1, c2, c3⟩ := s4 (H - 1 - r) x _ (by omega) hx hp
  have := l3 r x hr hx
  rw [hi2] at this
  rw [this]
  unfold stride24 at c1 c2 c3
  simp only [pixelAt]
  have e : 54 + (H - 1 - r) * ((24 * W + 31) / 32 * 4) + x * (24 / 8)
      = 54 + (H - 1 - r) * ((24 * W + 31) / 32 * 4) + 3 * x := by omega
  rw [e, byteAt_of_getElem? _ _ _ c1, byteAt_of_getElem? _ _ _ c2, byteAt_of_getElem? _ _ _ c3]
  simp

/-- Witness for C1: a 2 by 2 buffer whose pixels carry four different alpha values. -/
theorem save_load_roundtrip_witness :
    ∃ bytes px,
      save true ⟨2, 2, [⟨1, 2, 3, 4⟩, ⟨5, 6, 7, 8⟩, ⟨9, 10, 11, 12⟩, ⟨13, 14, 15, 16⟩]⟩
          = .ok (true, some bytes)
      ∧ load ⟨fun _ => 0, fun _ => 0, fun _ _ => ⟨7, 7, 7, 7⟩⟩ (some bytes) ⟨0, 0, []⟩
          = .ok (true, { width := (2 : Nat), height := (2 : Nat), pixels := px })
      ∧ px.length = 2 * 2
      ∧ ∀ i, i < 2 * 2 →
          ∃ p, [(⟨1, 2, 3, 4⟩ : Pixel), ⟨5, 6, 7, 8⟩, ⟨9, 10, 11, 12⟩, ⟨13, 14, 15, 16⟩][i]? = some p
            ∧ px[i]? = some ⟨p.r, p.g, p.b, 255⟩ :=
  save_load_roundtrip ⟨fun _ => 0, fun _ => 0, fun _ _ => ⟨7, 7, 7, 7⟩⟩
    ⟨2, 2, [⟨1, 2, 3, 4⟩, ⟨5, 6, 7, 8⟩, ⟨9, 10, 11, 12⟩, ⟨13, 14, 15, 16⟩]⟩ ⟨0, 0, []⟩ 2 2
    (by decide) (by decide) rfl rfl rfl (by decide) (by decide)

/-- C2 as stated fails: the 34-byte file `truncatedHeaderFile` has signature `BM`, 24 bits
per pixel, width 1, height 1 and `pixelDataOffset + H * stride = 34` bytes, yet `load`
returns success with a pixel that was never read from the file (the short read of the info
header left the stream failed), here `(0,0,0,255)` instead of `(7,8,9,255)`. -/
theorem load_truncated_header_counterexample :
    ((BMPHeader.ofBytes (fileMem truncatedHeaderFile 0)).bfType = 0x4D42
      ∧ (BMPHeader.ofBytes (fileMem truncatedHeaderFile 0)).bfOffBits = 30
      ∧ (DIBHeader.ofBytes (fileMem truncatedHeaderFile 14)).biBitCount = 24
      ∧ (DIBHeader.ofBytes (fileMem truncatedHeaderFile 14)).biWidth = 1
      ∧ (DIBHeader.ofBytes (fileMem truncatedHeaderFile 14)).biHeight = 1
      ∧ 30 + 1 * (((24 * 1 + 31) / 32) * 4) ≤ truncatedHeaderFile.length)
    ∧ load zeroUninit (some truncatedHeaderFile) ⟨0, 0, []⟩
        = .ok (true, { width := 1, height := 1, pixels := [⟨0, 0, 0, 255⟩] })
    ∧ (⟨0, 0, 0, 255⟩ : Pixel)
        ≠ ⟨byteAt truncatedHeaderFile (30 + 2), byteAt truncatedHeaderFile (30 + 1),
            byteAt truncatedHeaderFile 30, 255⟩ := by
  decide

/-- C2, amended (bottom-up decoding from the declared offset).  For every file of at least
54 bytes with signature `BM`, bit count `b` in `{24, 32}`, width `W ≥ 1`, height `H ≥ 1`
(`b * W + 31` and `W * H` within the 32-bit range) and at least
`off + H * stride` bytes, `stride = ((b * W + 31) / 32) * 4`, `load` succeeds and the pixel at
index `r * W + x` has blue, green, red taken from the file bytes at
`off + (H - 1 - r) * stride + x * (b / 8) + 0, 1, 2` and alpha from the byte at `+ 3` when
`b = 32`, alpha 255 when `b = 24`, for any declared offset `off`. -/
theorem load_decodes_bottom_up (u : Uninit) (data : List Byte) (img : BMPImage)
    (W H b off : Nat) (h54 : 54 ≤ data.length)
    (hsig : (BMPHeader.ofBytes (fileMem data 0)).bfType = 0x4D42)
    (hoff : (BMPHeader.ofBytes (fileMem data 0)).bfOffBits = off)
    (hbc : (DIBHeader.ofBytes (fileMem data 14)).biBitCount = b)
    (hw : (DIBHeader.ofBytes (fileMem data 14)).biWidth = (W : Int))
    (hh : (DIBHeader.ofBytes (fileMem data 14)).biHeight = (H : Int))
    (hb : b = 24 ∨ b = 32) (_hW : 1 ≤ W) (_hH : 1 ≤ H)
    (_hrow : b * W + 31 ≤ 2147483647) (hWH : W * H ≤ 2147483647)
    (hlen : off + H * (((b * W + 31) / 32) * 4) ≤ data.length) :
    ∃ px, load u (some data) img = .ok (true, { width := W, height := H, pixels := px })
      ∧ px.length = W * H
      ∧ ∀ r x, r < H → x < W →
          px[r * W + x]? = some
            { r := byteAt data (off + (H - 1 - r) * (((b * W + 31) / 32) * 4) + x * (b / 8) + 2),
              g := byteAt data (off + (H - 1 - r) * (((b * W + 31) / 32) * 4) + x * (b / 8) + 1),
              b := byteAt data (off + (H - 1 - r) * (((b * W + 31) / 32) * 4) + x * (b / 8)),
              a := if b = 32 then
                  byteAt data (off + (H - 1 - r) * (((b * W + 31) / 32) * 4) + x * (b / 8) + 3)
                else 255 } :=
  load_good u data img W H b off h54 hsig hoff hbc hw hh hb hWH hlen

/-- Witness for C2: the 32-bit one-pixel file decodes to red 7, green 8, blue 9, alpha 6. -/
theorem load_decodes_bottom_up_witness :
    ∃ px, load zeroUninit (some onePixel32File) ⟨0, 0, []⟩
        = .ok (true, { width := (1 : Nat), height := (1 : Nat), pixels := px })
      ∧ px.length = 1 * 1
      ∧ ∀ r x, r < 1 → x < 1 →
          px[r * 1 + x]? = some
            { r := byteAt onePixel32File (54 + (1 - 1 - r) * (((32 * 1 + 31) / 32) * 4) + x * (32 / 8) + 2),
              g := byteAt onePixel32File (54 + (1 - 1 - r) * (((32 * 1 + 31) / 32) * 4) + x * (32 / 8) + 1),
              b := byteAt onePixel32File (54 + (1 - 1 - r) * (((32 * 1 + 31) / 32) * 4) + x * (32 / 8)),
              a := if 32 = 32 then
                  byteAt onePixel32File (54 + (1 - 1 - r) * (((32 * 1 + 31) / 32) * 4) + x * (32 / 8) + 3)
                else 255 } :=
  load_decodes_bottom_up zeroUninit onePixel32File ⟨0, 0, []⟩ 1 1 32 54 (by decide) (by decide)
    (by decide) (by decide) (by decide) (by decide) (by decide) (by decide) (by decide)
    (by decide) (by decide) (by decide)

/-- C3 (pixel data written by `save`).  For a `W` by `H` buffer, `W, H ≥ 1`, with
`pixels.length = W * H` and no 32-bit overflow, the output of `save` is `54 + stride * H`
bytes long, `stride = ((24 * W + 31) / 32) * 4`; for every on-disk row `k < H` and column
`x < W` the bytes at `54 + k * stride + 3 * x + 0, 1, 2` are the blue, green, red of the
in-memory pixel at row `H - 1 - k`, column `x`; and the bytes of each on-disk row from
`3 * W` up to `stride` are zero. -/
theorem save_pixel_layout (img : BMPImage) (W H : Nat) (hW : 1 ≤ W) (_hH : 1 ≤ H)
    (hw : img.width = (W : Int)) (hh : img.height = (H : Int))
    (hpx : img.pixels.length = W * H)
    (hrow : 24 * W + 31 ≤ 2147483647) (hsize : ((24 * W + 31) / 32) * 4 * H ≤ 2147483647) :
    ∃ out, save true img = .ok (true, some out)
      ∧ out.length = 54 + ((24 * W + 31) / 32) * 4 * H
      ∧ (∀ k x, k < H → x < W →
          ∃ p, img.pixels[(H - 1 - k) * W + x]? = some p
            ∧ out[54 + k * (((24 * W + 31) / 32) * 4) + 3 * x]? = some p.b
            ∧ out[54 + k * (((24 * W + 31) / 32) * 4) + 3 * x + 1]? = some p.g
            ∧ out[54 + k * (((24 * W + 31) / 32) * 4) + 3 * x + 2]? = some p.r)
      ∧ (∀ k j, k < H → 3 * W ≤ j → j < ((24 * W + 31) / 32) * 4 →
          out[54 + k * (((24 * W + 31) / 32) * 4) + j]? = some 0) := by
  have hWr : W ≤ 2147483647 := by omega
  have hHr : H ≤ 2147483647 := by
    have h1 : 1 * H ≤ W * H := Nat.mul_le_mul_right H hW
    have h2 : W * H ≤ ((24 * W + 31) / 32) * 4 * H := Nat.mul_le_mul_right H (by omega)
    omega
  obtain ⟨out, s1, s2, _, s4, s5⟩ := saveBytes_good img W H hw hh hpx hWr hHr
  unfold stride24 at s2 s4 s5
  refine ⟨out, by simp [save, s1], by rw [s2, Nat.mul_comm], ?_, s5⟩
  intro k x hk hx
  have hidx : (H - 1 - k) * W + x < img.pixels.length := by
    have h1 : (H - 1 - k) * W + W = (H - 1 - k + 1) * W := (Nat.succ_mul _ _).symm
    have h2 : (H - 1 - k + 1) * W ≤ H * W := Nat.mul_le_mul_right W (by omega)
    have h3 : H * W = W * H := Nat.mul_comm _ _
    omega
  exact ⟨img.pixels[(H - 1 - k) * W + x], List.getElem?_eq_getElem hidx,
    s4 k x _ hk hx (List.getElem?_eq_getElem hidx)⟩

/-- Witness for C3: a 1 by 2 buffer; each on-disk row is three colour bytes and one zero. -/
theorem save_pixel_layout_witness :
    ∃ out, save true ⟨1, 2, [⟨1, 2, 3, 4⟩, ⟨5, 6, 7, 8⟩]⟩ = .ok (true, some out)
      ∧ out.length = 54 + ((24 * 1 + 31) / 32) * 4 * 2
      ∧ (∀ k x, k < 2 → x < 1 →
          ∃ p, [(⟨1, 2, 3, 4⟩ : Pixel), ⟨5, 6, 7, 8⟩][(2 - 1 - k) * 1 + x]? = some p
            ∧ out[54 + k * (((24 * 1 + 31) / 32) * 4) + 3 * x]? = some p.b
            ∧ out[54 + k * (((24 * 1 + 31) / 32) * 4) + 3 * x + 1]? = some p.g
            ∧ out[54 + k * (((24 * 1 + 31) / 32) * 4) + 3 * x + 2]? = some p.r)
      ∧ (∀ k j, k < 2 → 3 * 1 ≤ j → j < ((24 * 1 + 31) / 32) * 4 →
          out[54 + k * (((24 * 1 + 31) / 32) * 4) + j]? = some 0) :=
  save_pixel_layout ⟨1, 2, [⟨1, 2, 3, 4⟩, ⟨5, 6, 7, 8⟩]⟩ 1 2 (by decide) (by decide) rfl rfl rfl
    (by decide) (by decide)

/-- C4 (header written by `save`).  For a `W` by `H` buffer, `W, H ≥ 1`, with
`pixels.length = W * H` and no 32-bit overflow, the first 54 bytes of the output of `save`
are the unpadded little-endian encoding of signature `0x42, 0x4D`, fileSize
`54 + stride * H`, reserved1 0, reserved2 0, pixelDataOffset 54, headerSize 40, width `W`,
height `H`, planes 1, bitsPerPixel 24, compression 0, imageSize `stride * H`, and zero for
xRes, yRes, colorsUsed and colorsImportant, `stride = ((24 * W + 31) / 32) * 4`. -/
theorem save_header_layout (img : BMPImage) (W H : Nat) (hW : 1 ≤ W) (_hH : 1 ≤ H)
    (hw : img.width = (W : Int)) (hh : img.height = (H : Int))
    (hpx : img.pixels.length = W * H)
    (hrow : 24 * W + 31 ≤ 2147483647) (hsize : ((24 * W + 31) / 32) * 4 * H ≤ 2147483647) :
    ∃ out, save true img = .ok (true, some out)
      ∧ out.take 54 =
          [0x42, 0x4D] ++ leBytes 4 (54 + ((24 * W + 31) / 32) * 4 * H)
            ++ leBytes 2 0 ++ leBytes 2 0 ++ leBytes 4 54
            ++ leBytes 4 40 ++ leBytes 4 W ++ leBytes 4 H ++ leBytes 2 1 ++ leBytes 2 24
            ++ leBytes 4 0 ++ leBytes 4 (((24 * W + 31) / 32) * 4 * H)
            ++ leBytes 4 0 ++ leBytes 4 0 ++ leBytes 4 0 ++ leBytes 4 0 := by
  have hWr : W ≤ 2147483647 := by omega
  have hHr : H ≤ 2147483647 := by
    have h1 : 1 * H ≤ W * H := Nat.mul_le_mul_right H hW
    have h2 : W * H ≤ ((24 * W + 31) / 32) * 4 * H := Nat.mul_le_mul_right H (by omega)
    omega
  obtain ⟨out, s1, s2, s3, _, _⟩ := saveBytes_good img W H hw hh hpx hWr hHr
  refine ⟨out, by simp [save, s1], ?_⟩
  have htake : out.take 54 = savedHeader W H := by
    apply List.ext_getElem?
    intro j
    by_cases hj : j < 54
    · rw [List.getElem?_take_of_lt hj]; exact s3 j hj
    · rw [List.getElem?_eq_none (by rw [List.length_take]; omega),
        List.getElem?_eq_none (by rw [savedHeader_length]; omega)]
  rw [htake]
  have v : ∀ a c : Nat, a % 256 = c % 256 → (Fin.ofNat a : Fin 256) = Fin.ofNat c :=
    fun a c h => Fin.ext h
  have hw1 : ((W : Int) % 4294967296).toNat = W := by omega
  have hh1 : ((H : Int) % 4294967296).toNat = H := by omega
  have hz : ((0 : Int) % 4294967296).toNat = 0 := rfl
  generalize hS : ((24 * W + 31) / 32) * 4 * H = S at hsize
  simp only [savedHeader, stride24, hS, BMPHeader.toBytes, DIBHeader.toBytes, u16Bytes, u32Bytes,
    i32Bytes, leBytes, hw1, hh1, hz, Int.toNat_ofNat, List.cons_append, List.nil_append,
    List.append_assoc, List.cons.injEq, and_true, true_and]
  repeat' apply And.intro
  all_goals first | rfl | (apply v; omega)

/-- Witness for C4: the header of a saved 3 by 2 buffer. -/
theorem save_header_layout_witness :
    ∃ out, save true ⟨3, 2, List.replicate 6 ⟨0, 0, 0, 255⟩⟩ = .ok (true, some out)
      ∧ out.take 54 =
          [0x42, 0x4D] ++ leBytes 4 (54 + ((24 * 3 + 31) / 32) * 4 * 2)
            ++ leBytes 2 0 ++ leBytes 2 0 ++ leBytes 4 54
            ++ leBytes 4 40 ++ leBytes 4 3 ++ leBytes 4 2 ++ leBytes 2 1 ++ leBytes 2 24
            ++ leBytes 4 0 ++ leBytes 4 (((24 * 3 + 31) / 32) * 4 * 2)
            ++ leBytes 4 0 ++ leBytes 4 0 ++ leBytes 4 0 ++ leBytes 4 0 :=
  save_header_layout ⟨3, 2, List.replicate 6 ⟨0, 0, 0, 255⟩⟩ 3 2 (by decide) (by decide) rfl rfl
    rfl (by decide) (by decide)

/-- C5 (signature check).  For every openable file whose first two bytes `b0, b1` are not
`0x42, 0x4D`, whatever follows them, `load` returns `false`; the image is left as it
was. -/
theorem load_rejects_bad_signature (u : Uninit) (b0 b1 : Byte) (rest : List Byte)
    (img : BMPImage) (hsig : ¬ (b0 = 0x42 ∧ b1 = 0x4D)) :
    load u (some (b0 :: b1 :: rest)) img = .ok (false, img) := by
  have hk : 0 < min 14 (rest.length + 1 + 1 - 0) ∧ 1 < min 14 (rest.length + 1 + 1 - 0) := by
    omega
  have hne : (b0 : Nat) + 256 * (b1 : Nat) ≠ 19778 := by
    intro h
    apply hsig
    have h0 := b0.isLt
    have h1 := b1.isLt
    constructor <;> apply Fin.ext
    · show (b0 : Nat) = 66; omega
    · show (b1 : Nat) = 77; omega
  simp only [load, IStream.ofFile, IStream.read, BMPHeader.ofBytes, u16At, List.length_cons,
    Bool.false_eq_true, if_false, hk.1, hk.2, Nat.zero_add, if_true]
  have e0 : byteAt (b0 :: b1 :: rest) 0 = b0 := rfl
  have e1 : byteAt (b0 :: b1 :: rest) (0 + 1) = b1 := rfl
  rw [e0, e1]
  simp [hne]

/-- Witness for C5: a file that starts with `MB`. -/
theorem load_rejects_bad_signature_witness :
    load zeroUninit (some (0x4D :: 0x42 :: List.drop 2 onePixel32File)) ⟨0, 0, []⟩
      = .ok (false, ⟨0, 0, []⟩) :=
  load_rejects_bad_signature zeroUninit 0x4D 0x42 (List.drop 2 onePixel32File) ⟨0, 0, []⟩
    (by decide)

/-- C6 (bit depth check).  For every openable file of at least 54 bytes whose 16-bit
little-endian field at bytes 28 and 29 is neither 24 nor 32 (for instance 1, 4, 8 or 16),
`load` returns `false`; the image is left as it was. -/
theorem load_rejects_bad_bit_count (u : Uninit) (data : List Byte) (img : BMPImage)
    (h54 : 54 ≤ data.length)
    (hbc : (byteAt data 28 : Nat) + 256 * (byteAt data 29 : Nat) ≠ 24
      ∧ (byteAt data 28 : Nat) + 256 * (byteAt data 29 : Nat) ≠ 32) :
    load u (some data) img = .ok (false, img) := by
  have hr1 := read_good (IStream.ofFile data) 14 u.bmpHeader rfl
    (by show 0 + 14 ≤ data.length; omega)
  have hr2 := read_good ⟨data, 0 + 14, false⟩ 40 u.dibHeader rfl
    (by show 0 + 14 + 40 ≤ data.length; omega)
  simp only [IStream.ofFile] at hr1
  simp only [] at hr2
  have hfield : (DIBHeader.ofBytes (fileMem data 14)).biBitCount
      = (byteAt data 28 : Nat) + 256 * (byteAt data 29 : Nat) := rfl
  simp only [load, IStream.ofFile, hr1, bmpHeader_ofBytes_read, hr2, dibHeader_ofBytes_read,
    hfield]
  by_cases hs : (BMPHeader.ofBytes (fileMem data 0)).bfType ≠ 19778
  · rw [if_pos hs]
  · rw [if_neg hs, if_pos hbc]

/-- Witness for C6: an otherwise well-formed file that declares 8 bits per pixel. -/
theorem load_rejects_bad_bit_count_witness :
    load zeroUninit (some (List.take 28 onePixel32File ++ 8 :: List.drop 29 onePixel32File))
      ⟨0, 0, []⟩ = .ok (false, ⟨0, 0, []⟩) :=
  load_rejects_bad_bit_count zeroUninit
    (List.take 28 onePixel32File ++ 8 :: List.drop 29 onePixel32File) ⟨0, 0, []⟩
    (by decide) (by decide)

/-- C7 (`drawX` inside bounds).  For a buffer with `pixels.length = width * height` and an
origin `(x, y)` with `0 ≤ x`, `x + 10 < width`, `0 ≤ y`, `y + 10 < height`
(`width * height` within the 32-bit range), `drawX`
returns (whenever the loop is given at least 11 iterations), the points visited are, in
order, `(x + i, y + i)` and then `(x + i, y + 10 - i)`, `i = 0, …, 10`; every pixel on the
cross has red = green = blue = 255, and every other pixel of the buffer is the pixel it was
before. -/
theorem drawX_inside_bounds (fuel : Nat) (x y : Int) (img : BMPImage) (hfuel : 11 ≤ fuel)
    (hlen : (img.pixels.length : Int) = img.width * img.height)
    (hWH : img.width * img.height ≤ 2147483647)
    (hx0 : 0 ≤ x) (hx1 : x + 10 < img.width) (hy0 : 0 ≤ y) (hy1 : y + 10 < img.height) :
    ∃ px, drawX fuel x y img
        = .ok ({ width := img.width, height := img.height, pixels := px },
            (List.range 11).map (fun i : Nat => (x + (i : Int), y + (i : Int)))
              ++ (List.range 11).map (fun i : Nat => (x + (i : Int), y + 10 - (i : Int))))
      ∧ px.length = img.pixels.length
      ∧ (∀ qx qy : Int, onCross x y qx qy →
          (0 ≤ qx ∧ qx < img.width ∧ 0 ≤ qy ∧ qy < img.height)
          ∧ ∃ p, px[(qy * img.width + qx).toNat]? = some p ∧ p.r = 255 ∧ p.g = 255 ∧ p.b = 255)
      ∧ (∀ qx qy : Int, 0 ≤ qx → qx < img.width → 0 ≤ qy → qy < img.height →
          ¬ onCross x y qx qy →
          px[(qy * img.width + qx).toNat]? = img.pixels[(qy * img.width + qx).toNat]?) := by
  obtain ⟨px, h1, h2, h3⟩ := drawX_pixels fuel x y img hfuel hlen hWH
  refine ⟨px, ?_, h2, ?_, ?_⟩
  · rw [h1, diagPoints_eq_map, diagPoints_eq_map]
    have e1 : (fun i : Nat => (x + (i : Int), y + 1 * (i : Int)))
        = (fun i : Nat => (x + (i : Int), y + (i : Int))) := by
      funext i; simp
    have e2 : (fun i : Nat => (x + (i : Int), y + 10 + -1 * (i : Int)))
        = (fun i : Nat => (x + (i : Int), y + 10 - (i : Int))) := by
      funext i; ext <;> simp; ring
    rw [e1, e2]
  · intro qx qy hon
    have hb : 0 ≤ qx ∧ qx < img.width ∧ 0 ≤ qy ∧ qy < img.height := by
      obtain ⟨i, hi, hqx, hqy⟩ := hon
      rcases hqy with hqy | hqy <;> omega
    exact ⟨hb, ⟨255, 255, 255, 0⟩, (h3 qx qy hb.1 hb.2.1 hb.2.2.1 hb.2.2.2).1 hon, rfl, rfl, rfl⟩
  · intro qx qy a b c d hoff
    exact (h3 qx qy a b c d).2 hoff

/-- Witness for C7: an 11 by 11 black buffer and the origin `(0, 0)`. -/
theorem drawX_inside_bounds_witness :
    ∃ px, drawX 11 0 0 ⟨11, 11, List.replicate 121 ⟨0, 0, 0, 255⟩⟩
        = .ok ({ width := 11, height := 11, pixels := px },
            (List.range 11).map (fun i : Nat => ((0 : Int) + (i : Int), (0 : Int) + (i : Int)))
              ++ (List.range 11).map
                  (fun i : Nat => ((0 : Int) + (i : Int), (0 : Int) + 10 - (i : Int))))
      ∧ px.length = (List.replicate 121 (⟨0, 0, 0, 255⟩ : Pixel)).length
      ∧ (∀ qx qy : Int, onCross 0 0 qx qy →
          (0 ≤ qx ∧ qx < 11 ∧ 0 ≤ qy ∧ qy < 11)
          ∧ ∃ p, px[(qy * 11 + qx).toNat]? = some p ∧ p.r = 255 ∧ p.g = 255 ∧ p.b = 255)
      ∧ (∀ qx qy : Int, 0 ≤ qx → qx < 11 → 0 ≤ qy → qy < 11 → ¬ onCross 0 0 qx qy →
          px[(qy * 11 + qx).toNat]?
            = (List.replicate 121 (⟨0, 0, 0, 255⟩ : Pixel))[(qy * 11 + qx).toNat]?) :=
  drawX_inside_bounds 11 0 0 ⟨11, 11, List.replicate 121 ⟨0, 0, 0, 255⟩⟩ (by decide)
    (by decide) (by decide) (by decide) (by decide) (by decide) (by decide)

/-- C8, the behaviour of the code at the failing input: after `drawX(0,0)` on a 1 by 1 buffer
holding `(0,0,0,255)`, pixel `(0,0)` is `(255,255,255,0)`.  The braced list `{255,255,255}`
leaves the fourth member `a` value-initialised, so the point is white with alpha 0, not the
opaque white `(255,255,255,255)` of the claim. -/
theorem drawX_origin_alpha_zero :
    drawX 11 0 0 ⟨1, 1, [⟨0, 0, 0, 255⟩]⟩
      = .ok (⟨1, 1, [⟨255, 255, 255, 0⟩]⟩, diagPoints 1 10 0 0 ++ diagPoints (-1) 10 0 10) := by
  decide

/-- C9 (`drawX` clips safely).  For a buffer with `width, height ≥ 1` and
`pixels.length = width * height` and every integer origin `(x, y)` (with `width * height`,
`x + 10` and `y + 10` in the 32-bit range), `drawX` returns as soon as each loop is given 11
iterations: the result is not a fault, so no subscript left `[0, pixels.length)`; the index
of every visited point inside the buffer lies in `[0, width * height)`; the vector keeps its
length; and every pixel that is not on the cross is unchanged. -/
theorem drawX_clips_safely (fuel : Nat) (x y : Int) (img : BMPImage) (hfuel : 11 ≤ fuel)
    (hlen : (img.pixels.length : Int) = img.width * img.height)
    (_hW1 : 1 ≤ img.width) (_hH1 : 1 ≤ img.height)
    (hWH : img.width * img.height ≤ 2147483647)
    (_hx : -2147483648 ≤ x ∧ x + 10 ≤ 2147483647) (_hy : -2147483648 ≤ y ∧ y + 10 ≤ 2147483647) :
    ∃ px visited, drawX fuel x y img
        = .ok ({ width := img.width, height := img.height, pixels := px }, visited)
      ∧ px.length = img.pixels.length
      ∧ (∀ p ∈ visited, 0 ≤ p.1 → p.1 < img.width → 0 ≤ p.2 → p.2 < img.height →
          0 ≤ p.2 * img.width + p.1 ∧ p.2 * img.width + p.1 < img.width * img.height)
      ∧ (∀ qx qy : Int, 0 ≤ qx → qx < img.width → 0 ≤ qy → qy < img.height →
          ¬ onCross x y qx qy →
          px[(qy * img.width + qx).toNat]? = img.pixels[(qy * img.width + qx).toNat]?) := by
  obtain ⟨px, h1, h2, h3⟩ := drawX_pixels fuel x y img hfuel hlen hWH
  exact ⟨px, _, h1, h2,
    fun p _ a b c d => pixelIndex_lt img.width img.height p.1 p.2 a b c d,
    fun qx qy a b c d hoff => (h3 qx qy a b c d).2 hoff⟩

/-- Witness for C9: the origin `(15, 15) = (width - 5, height - 5)` on a 20 by 20 buffer. -/
theorem drawX_clips_safely_witness :
    ∃ px visited, drawX 11 15 15 ⟨20, 20, List.replicate 400 ⟨0, 0, 0, 255⟩⟩
        = .ok ({ width := 20, height := 20, pixels := px }, visited)
      ∧ px.length = (List.replicate 400 (⟨0, 0, 0, 255⟩ : Pixel)).length
      ∧ (∀ p ∈ visited, 0 ≤ p.1 → p.1 < (20 : Int) → 0 ≤ p.2 → p.2 < (20 : Int) →
          0 ≤ p.2 * 20 + p.1 ∧ p.2 * 20 + p.1 < (20 : Int) * 20)
      ∧ (∀ qx qy : Int, 0 ≤ qx → qx < 20 → 0 ≤ qy → qy < 20 → ¬ onCross 15 15 qx qy →
          px[(qy * 20 + qx).toNat]?
            = (List.replicate 400 (⟨0, 0, 0, 255⟩ : Pixel))[(qy * 20 + qx).toNat]?) :=
  drawX_clips_safely 11 15 15 ⟨20, 20, List.replicate 400 ⟨0, 0, 0, 255⟩⟩ (by decide)
    (by simp only [List.length_replicate]; rfl) (by decide) (by decide) (by decide) (by decide)
    (by decide)

/-- C10 (rendering).  For a `W` by `H` buffer with `pixels.length = W * H`,
`printToConsole` writes exactly `H` lines, the line of row `y` being the `W` glyphs of the
pixels at indices `y * W + 0, …, y * W + (W - 1)` followed by a line break, where the glyph
is `#` for red = green = blue = 0, a space for red = green = blue = 255 and `?` otherwise;
alpha is not consulted.  The method is `const`: the model yields the output only. -/
theorem printToConsole_renders (img : BMPImage) (W H : Nat) (hw : img.width = (W : Int))
    (hh : img.height = (H : Int)) (hpx : img.pixels.length = W * H)
    (hWH : W * H ≤ 2147483647) :
    printToConsole img
      = .ok ((List.range H).flatMap (fun y =>
          (List.range W).map (fun x => glyph (img.pixels.getD (y * W + x) ⟨0, 0, 0, 0⟩))
            ++ ['\n']))
    ∧ ∀ p : Pixel, glyph p = glyph { p with a := 0 } := by
  constructor
  · unfold printToConsole
    rw [hh, Int.toNat_ofNat, printRows_eq img W H hw hpx (by omega) H 0 [] (by omega)]
    simp [List.range_eq_range']
  · intro p; rfl

/-- Witness for C10: a 2 by 2 buffer with a black, a white (alpha 0), a coloured and a black
pixel prints `# `, line break, `?#`, line break. -/
theorem printToConsole_renders_witness :
    printToConsole ⟨2, 2, [⟨0, 0, 0, 255⟩, ⟨255, 255, 255, 0⟩, ⟨1, 0, 0, 0⟩, ⟨0, 0, 0, 255⟩]⟩
      = .ok ['#', ' ', '\n', '?', '#', '\n'] :=
  (printToConsole_renders
    ⟨2, 2, [⟨0, 0, 0, 255⟩, ⟨255, 255, 255, 0⟩, ⟨1, 0, 0, 0⟩, ⟨0, 0, 0, 255⟩]⟩ 2 2 rfl rfl rfl
    (by decide)).1

/-- C11, the behaviour of the code at the failing input: when the output file cannot be
opened, `save` of a 1 by 1 buffer still returns `true` and no file is written.  The method
never tests its stream and ends in an unconditional `return true`, so the failure that the
claim requires (and that `main` tests for) is never reported. -/
theorem save_unopenable_returns_true :
    save false ⟨1, 1, [⟨0, 0, 0, 255⟩]⟩ = .ok (true, none) := by
  decide

/-- C12 (size invariant).  A `load` of a file of at least 54 bytes with signature `BM`, 24 or
32 bits per pixel and declared width `W ≥ 1`, height `H ≥ 1`, `W * H` in the 32-bit range,
returns `true` and leaves width `W`, height `H` and `pixels.length = W * H`, whatever the
pixel data; `drawX`, whenever it returns, keeps width, height and `pixels.length`
(`printToConsole` and `save` yield no image); hence `pixels.length = width * height` in
every state reachable from a successful load. -/
theorem size_invariant (u : Uninit) (data : List Byte) (img0 : BMPImage) (W H : Nat)
    (h54 : 54 ≤ data.length)
    (hsig : (BMPHeader.ofBytes (fileMem data 0)).bfType = 0x4D42)
    (hbc : (DIBHeader.ofBytes (fileMem data 14)).biBitCount = 24
      ∨ (DIBHeader.ofBytes (fileMem data 14)).biBitCount = 32)
    (hw : (DIBHeader.ofBytes (fileMem data 14)).biWidth = (W : Int))
    (hh : (DIBHeader.ofBytes (fileMem data 14)).biHeight = (H : Int))
    (hW : 1 ≤ W) (hH : 1 ≤ H) (hWH : W * H ≤ 2147483647) :
    (∃ img, load u (some data) img0 = .ok (true, img) ∧ img.width = W ∧ img.height = H
        ∧ img.pixels.length = W * H ∧ Reachable img)
      ∧ (∀ (fuel : Nat) (x y : Int) (img : BMPImage) (r : BMPImage × List (Int × Int)),
          drawX fuel x y img = .ok r →
          r.1.width = img.width ∧ r.1.height = img.height
            ∧ r.1.pixels.length = img.pixels.length)
      ∧ (∀ img, Reachable img → (img.pixels.length : Int) = img.width * img.height) := by
  refine ⟨?_, drawX_preserves, ?_⟩
  · obtain ⟨px, h1, h2⟩ := load_accepts u data img0 W H h54 hsig hbc hw hh hWH
    refine ⟨_, h1, rfl, rfl, h2, ?_⟩
    exact Reachable.loaded u (some data) img0 _ h1 (by show (1 : Int) ≤ (W : Int); omega)
      (by show (1 : Int) ≤ (H : Int); omega)
      (by show (W : Int) * (H : Int) ≤ 2147483647; exact_mod_cast hWH)
  · intro img hr
    suffices hs : (img.pixels.length : Int) = img.width * img.height ∧ 1 ≤ img.width
        ∧ 1 ≤ img.height ∧ img.width * img.height ≤ 2147483647 from hs.1
    induction hr with
    | loaded u file img0 img hl hw1 hh1 hb =>
      exact ⟨load_true_length u file img0 img hl hw1 hh1 hb, hw1, hh1, hb⟩
    | drawn fuel x y img img1 visited _ hd ih =>
      obtain ⟨a1, a2, a3⟩ := drawX_preserves fuel x y img (img1, visited) hd
      simp only [] at a1 a2 a3
      rw [a1, a2, a3]
      exact ih

/-- Witness for C12: the 32-bit one-pixel file. -/
theorem size_invariant_witness :
    (∃ img, load zeroUninit (some onePixel32File) ⟨0, 0, []⟩ = .ok (true, img)
        ∧ img.width = (1 : Nat) ∧ img.height = (1 : Nat)
        ∧ img.pixels.length = 1 * 1 ∧ Reachable img)
      ∧ (∀ (fuel : Nat) (x y : Int) (img : BMPImage) (r : BMPImage × List (Int × Int)),
          drawX fuel x y img = .ok r →
          r.1.width = img.width ∧ r.1.height = img.height
            ∧ r.1.pixels.length = img.pixels.length)
      ∧ (∀ img, Reachable img → (img.pixels.length : Int) = img.width * img.height) :=
  size_invariant zeroUninit onePixel32File ⟨0, 0, []⟩ 1 1 (by decide) (by decide) (by decide)
    (by decide) (by decide) (by decide) (by decide) (by decide)

/-- C13 (stride arithmetic).  For width `W ≥ 1` and bit count `b` in `{24, 32}` with
`b * W + 31` in the 32-bit range, write `S = ((b * W + 31) / 32) * 4`.

* `load`: on a file of at least 54 bytes with signature BM, offset `off`, bit count `b`,
  width `W`, height `H ≥ 1`, `W * H` in the 32-bit range and `off + H * S` bytes, the call
  returns `true` with the buffer that the row loop `loadRows` produces when it is run with
  row size `S`; that loop ends with the stream, not failed, at `off + H * S`, and pixel
  `(r, x)` comes from the bytes at `off + (H - 1 - r) * S + x * (b / 8)`.
* One turn of `loadRows` for row `y`, seek to `off + y * S`, read of the row, skip of the
  padding, leaves the stream at `off + (y + 1) * S`.
* `save`: `saveBytes` is `saveRows` run with row size `((24 * W + 31) / 32) * 4` after the 54
  header bytes; it writes `54 + H * stride` bytes, and in every row the bytes from `3 * W` to
  the stride, fewer than four, are zero.
* `S` is a multiple of 4, at least `(b / 8) * W`, and the smallest such; the padding
  `S - (b / 8) * W` is below 4, is 0 when `b = 32`, and row plus padding is `S`; the `int`
  and `size_t` expressions of `load` and `save` for row size and padding have these values. -/
theorem stride_arithmetic (W b : Nat) (hW : 1 ≤ W) (hb : b = 24 ∨ b = 32)
    (hr : b * W + 31 ≤ 2147483647) :
    (∀ (u : Uninit) (data : List Byte) (img0 : BMPImage) (H off : Nat),
        54 ≤ data.length →
        (BMPHeader.ofBytes (fileMem data 0)).bfType = 0x4D42 →
        (BMPHeader.ofBytes (fileMem data 0)).bfOffBits = off →
        (DIBHeader.ofBytes (fileMem data 14)).biBitCount = b →
        (DIBHeader.ofBytes (fileMem data 14)).biWidth = (W : Int) →
        (DIBHeader.ofBytes (fileMem data 14)).biHeight = (H : Int) →
        1 ≤ H → W * H ≤ 2147483647 →
        off + H * (((b * W + 31) / 32) * 4) ≤ data.length →
        ∃ s1 px1, loadRows u b off (((b * W + 31) / 32) * 4) W H H 0
              ((IStream.ofFile data).seekg off) (resize img0.pixels (W * H)) = .ok (s1, px1)
          ∧ s1.pos = off + H * (((b * W + 31) / 32) * 4)
          ∧ s1.failed = false
          ∧ load u (some data) img0 = .ok (true, { width := W, height := H, pixels := px1 })
          ∧ ∀ r x, r < H → x < W → px1[r * W + x]?
              = some (pixelAt data b (off + (H - 1 - r) * (((b * W + 31) / 32) * 4)
                  + x * (b / 8))))
      ∧ (∀ (u : Uninit) (data : List Byte) (H y off : Nat) (px : List Pixel),
          y < H → W * H ≤ 2147483647 → px.length = W * H →
          off + (y + 1) * (((b * W + 31) / 32) * 4) ≤ data.length →
          ∃ px1, loadRows u b off (((b * W + 31) / 32) * 4) W H 1 y (IStream.ofFile data) px
            = .ok (⟨data, off + (y + 1) * (((b * W + 31) / 32) * 4), false⟩, px1))
      ∧ (∀ (img : BMPImage) (H : Nat), img.width = (W : Int) → img.height = (H : Int) →
          img.pixels.length = W * H → (((24 * W + 31) / 32) * 4) * H ≤ 2147483647 →
          ∃ out, saveBytes img = .ok out
            ∧ saveRows img ((((24 * W + 31) / 32) * 4 : Nat) : Int) H ((H : Int) - 1)
                (savedHeader W H) = .ok out
            ∧ out.length = 54 + H * (((24 * W + 31) / 32) * 4)
            ∧ ((24 * W + 31) / 32) * 4 - 3 * W < 4
            ∧ ∀ k j, k < H → 3 * W ≤ j → j < ((24 * W + 31) / 32) * 4 →
                out[54 + k * (((24 * W + 31) / 32) * 4) + j]? = some 0)
      ∧ toSizeT ((((b : Int) * (W : Int) + 31).tdiv 32) * 4) = ((b * W + 31) / 32) * 4
      ∧ (b = 24 → ((24 * (W : Int) + 31).tdiv 32) * 4 = ((((b * W + 31) / 32) * 4 : Nat) : Int))
      ∧ 4 ∣ ((b * W + 31) / 32) * 4
      ∧ (b / 8) * W ≤ ((b * W + 31) / 32) * 4
      ∧ (∀ m, 4 ∣ m → (b / 8) * W ≤ m → ((b * W + 31) / 32) * 4 ≤ m)
      ∧ toSizeT (((((b * W + 31) / 32) * 4 : Nat) : Int) - ((b / 8 : Nat) : Int) * (W : Int))
          = ((b * W + 31) / 32) * 4 - (b / 8) * W
      ∧ (b = 24 → toSizeT (((((b * W + 31) / 32) * 4 : Nat) : Int) - 3 * (W : Int))
          = ((b * W + 31) / 32) * 4 - (b / 8) * W)
      ∧ ((b * W + 31) / 32) * 4 - (b / 8) * W < 4
      ∧ (b = 32 → ((b * W + 31) / 32) * 4 - (b / 8) * W = 0)
      ∧ (b / 8) * W + (((b * W + 31) / 32) * 4 - (b / 8) * W) = ((b * W + 31) / 32) * 4 := by
  have hWr : W ≤ 2147483647 := by rcases hb with rfl | rfl <;> omega
  have hpad : toSizeT (((((b * W + 31) / 32) * 4 : Nat) : Int) - ((b / 8 : Nat) : Int) * (W : Int))
      = ((b * W + 31) / 32) * 4 - (b / 8) * W := by
    unfold toSizeT
    rcases hb with rfl | rfl <;> omega
  have hrow : W * (b / 8) ≤ ((b * W + 31) / 32) * 4 := by
    rcases hb with rfl | rfl <;> omega
  have hrs : ((b * W + 31) / 32) * 4 < 18446744073709551616 := by omega
  refine ⟨?_, ?_, ?_, rowSize_eq b W hWr (by omega), ?_, ?_, ?_, ?_, hpad, ?_, ?_, ?_, ?_⟩
  · intro u data img0 H off h54 hsig hoff hbc hw hh hH hWH hlen
    obtain ⟨n, rfl⟩ : ∃ n, H = n + 1 := ⟨H - 1, by omega⟩
    obtain ⟨px, g1, _, g3⟩ := load_good u data img0 W (n + 1) b off h54 hsig hoff hbc hw hh hb
      hWH hlen
    obtain ⟨px1, p1, _⟩ := loadRows_pos u b off (((b * W + 31) / 32) * 4) W (n + 1) data hb
      (by omega) hrow hrs n 0 ((IStream.ofFile data).seekg off) (resize img0.pixels (W * (n + 1)))
      (by simp [IStream.ofFile, IStream.seekg]) (by simp [IStream.ofFile, IStream.seekg])
      (by omega) (by simp [resize]; omega) (by rw [Nat.zero_add]; exact hlen)
    rw [Nat.zero_add] at p1
    have hr1 := read_good (IStream.ofFile data) 14 u.bmpHeader rfl
      (by show 0 + 14 ≤ data.length; omega)
    have hr2 := read_good ⟨data, 0 + 14, false⟩ 40 u.dibHeader rfl
      (by show 0 + 14 + 40 ≤ data.length; omega)
    simp only [IStream.ofFile] at hr1
    simp only [] at hr2
    have hprod : ¬ ((W : Int) * ((n + 1 : Nat) : Int) < 0) := by
      have : (0 : Int) ≤ (W : Int) * ((n + 1 : Nat) : Int) := by positivity
      omega
    have hsz : toSizeT ((W : Int) * ((n + 1 : Nat) : Int)) = W * (n + 1) := by
      rw [← Nat.cast_mul]; exact toSizeT_natCast _ (by omega)
    have hsame : (IStream.mk data (0 + 14 + 40) false).seekg off
        = (IStream.ofFile data).seekg off := by
      simp [IStream.ofFile, IStream.seekg]
    have hbne : ¬ (b ≠ 24 ∧ b ≠ 32) := by omega
    have hl : load u (some data) img0
        = .ok (true, { width := W, height := ((n + 1 : Nat) : Int), pixels := px1 }) := by
      simp only [load, IStream.ofFile, hr1, bmpHeader_ofBytes_read, hsig, hr2,
        dibHeader_ofBytes_read, hbc, hw, hh, hoff, rowSize_eq b W hWr (by omega), hprod,
        Int.toNat_ofNat, hbne, ne_eq, not_true_eq_false, if_false, hsz]
      rw [hsame, p1]
    have hpx : px = px1 := by
      rw [hl] at g1
      simp only [Except.ok.injEq, Prod.mk.injEq, true_and, BMPImage.mk.injEq] at g1
      exact g1.symm
    subst hpx
    exact ⟨_, px, p1, rfl, rfl, hl, g3⟩
  · intro u data H y off px hy hWH hpx hlen
    obtain ⟨px1, p1, _⟩ := loadRows_pos u b off (((b * W + 31) / 32) * 4) W H data hb
      (by omega) hrow hrs 0 y (IStream.ofFile data) px rfl rfl (by omega) hpx hlen
    exact ⟨px1, p1⟩
  · intro img H hw hh hpx hsize
    have hS : 1 ≤ ((24 * W + 31) / 32) * 4 := by omega
    have hHr : H ≤ 2147483647 := by
      have : H ≤ (((24 * W + 31) / 32) * 4) * H := Nat.le_mul_of_pos_left H hS
      omega
    obtain ⟨r, h1, h2, _, _, h5⟩ := saveBytes_good img W H hw hh hpx hWr hHr
    have e := saveBytes_eq_saveRows img W H hw hh (by unfold stride24; omega)
    unfold stride24 at h2 h5
    refine ⟨r, h1, by rw [← e]; exact h1, h2, by omega, h5⟩
  · intro h; subst h; exact save_rowSize_eq W
  · exact Dvd.intro_left _ rfl
  · rcases hb with rfl | rfl <;> omega
  · intro m hm hle
    rcases hb with rfl | rfl <;> omega
  · intro h; subst h; unfold toSizeT; omega
  · rcases hb with rfl | rfl <;> omega
  · intro h; subst h; omega
  · rcases hb with rfl | rfl <;> omega

/-- Witness for C13: the 3 by 2 file at 24 bits per pixel, stride 12 and padding 3; the row
loop of `load` ends at byte 78 and `load` returns its buffer; `saveBytes` of a 3 by 2 image
writes 78 bytes with zero padding. -/
theorem stride_arithmetic_witness :
    (∃ s1 px1, loadRows zeroUninit 24 54 (((24 * 3 + 31) / 32) * 4) ((3 : Nat) : Int)
          ((2 : Nat) : Int) 2 0 ((IStream.ofFile threeByTwoFile).seekg 54)
          (resize (BMPImage.mk 0 0 []).pixels (3 * 2)) = .ok (s1, px1)
      ∧ s1.pos = 54 + 2 * (((24 * 3 + 31) / 32) * 4)
      ∧ s1.failed = false
      ∧ load zeroUninit (some threeByTwoFile) ⟨0, 0, []⟩
          = .ok (true, { width := ((3 : Nat) : Int), height := ((2 : Nat) : Int), pixels := px1 })
      ∧ ∀ r x, r < 2 → x < 3 → px1[r * 3 + x]?
          = some (pixelAt threeByTwoFile 24 (54 + (2 - 1 - r) * (((24 * 3 + 31) / 32) * 4)
              + x * (24 / 8))))
      ∧ (∃ out, saveBytes ⟨3, 2, List.replicate 6 ⟨1, 2, 3, 4⟩⟩ = .ok out
          ∧ saveRows ⟨3, 2, List.replicate 6 ⟨1, 2, 3, 4⟩⟩
              ((((24 * 3 + 31) / 32) * 4 : Nat) : Int) 2 (((2 : Nat) : Int) - 1)
              (savedHeader 3 2) = .ok out
          ∧ out.length = 54 + 2 * (((24 * 3 + 31) / 32) * 4)
          ∧ ((24 * 3 + 31) / 32) * 4 - 3 * 3 < 4
          ∧ ∀ k j, k < 2 → 3 * 3 ≤ j → j < ((24 * 3 + 31) / 32) * 4 →
              out[54 + k * (((24 * 3 + 31) / 32) * 4) + j]? = some 0) :=
  ⟨(stride_arithmetic 3 24 (by decide) (by decide) (by decide)).1 zeroUninit threeByTwoFile
      ⟨0, 0, []⟩ 2 54 (by decide) (by decide) (by decide) (by decide) (by decide) (by decide)
      (by decide) (by decide) (by decide),
    (stride_arithmetic 3 24 (by decide) (by decide) (by decide)).2.2.1
      ⟨3, 2, List.replicate 6 ⟨1, 2, 3, 4⟩⟩ 2 (by decide) (by decide) (by decide) (by decide)⟩

/-- C14 (failure is atomic).  Whenever `load` returns `false` (the file cannot be opened, the
signature is wrong or the bit depth is unsupported) the image has the width, height and
pixels it had before the call: the result is `false` together with the image passed in. -/
theorem load_failure_atomic (u : Uninit) (file : Option (List Byte)) (img0 img : BMPImage)
    (h : load u file img0 = .ok (false, img)) :
    load u file img0 = .ok (false, img0)
      ∧ img.width = img0.width ∧ img.height = img0.height ∧ img.pixels = img0.pixels := by
  have e := load_false_unchanged u file img0 img h
  subst e
  exact ⟨h, rfl, rfl, rfl⟩

/-- Witness for C14: a load that fails on a file declaring 8 bits per pixel, into an image
that already holds a pixel. -/
theorem load_failure_atomic_witness :
    load zeroUninit (some (List.take 28 onePixel32File ++ 8 :: List.drop 29 onePixel32File))
        ⟨1, 1, [⟨1, 2, 3, 4⟩]⟩ = .ok (false, ⟨1, 1, [⟨1, 2, 3, 4⟩]⟩)
      ∧ (⟨1, 1, [⟨1, 2, 3, 4⟩]⟩ : BMPImage).width = (⟨1, 1, [⟨1, 2, 3, 4⟩]⟩ : BMPImage).width
      ∧ (⟨1, 1, [⟨1, 2, 3, 4⟩]⟩ : BMPImage).height = (⟨1, 1, [⟨1, 2, 3, 4⟩]⟩ : BMPImage).height
      ∧ (⟨1, 1, [⟨1, 2, 3, 4⟩]⟩ : BMPImage).pixels = (⟨1, 1, [⟨1, 2, 3, 4⟩]⟩ : BMPImage).pixels :=
  load_failure_atomic zeroUninit
    (some (List.take 28 onePixel32File ++ 8 :: List.drop 29 onePixel32File))
    ⟨1, 1, [⟨1, 2, 3, 4⟩]⟩ ⟨1, 1, [⟨1, 2, 3, 4⟩]⟩ (by decide)

/-- C15 (all-black example).  For `W, H ≥ 1` (no 32-bit overflow), loading the canonical
24-bit `W` by `H` bitmap whose pixel bytes are all zero yields `W * H` pixels `(0,0,0,255)`;
`printToConsole` on it prints `H` lines of `W` characters `#`; and `drawX(0,0)` followed by
`printToConsole` prints a space as the glyph of pixel `(0,0)`, the first character of the
output. -/
theorem all_black_example (u : Uninit) (img0 : BMPImage) (W H fuel : Nat) (hW : 1 ≤ W)
    (hH : 1 ≤ H) (hrow : 24 * W + 31 ≤ 2147483647)
    (hsize : ((24 * W + 31) / 32) * 4 * H ≤ 2147483647) (hfuel : 11 ≤ fuel) :
    load u (some (blackBitmap W H)) img0
        = .ok (true, { width := W, height := H,
                       pixels := List.replicate (W * H) ⟨0, 0, 0, 255⟩ })
      ∧ printToConsole ⟨W, H, List.replicate (W * H) ⟨0, 0, 0, 255⟩⟩
        = .ok ((List.range H).flatMap (fun _ => List.replicate W '#' ++ ['\n']))
      ∧ ∃ img1 visited out,
          drawX fuel 0 0 ⟨W, H, List.replicate (W * H) ⟨0, 0, 0, 255⟩⟩ = .ok (img1, visited)
            ∧ img1.pixels[0]? = some ⟨255, 255, 255, 0⟩
            ∧ printToConsole img1 = .ok out
            ∧ out[0]? = some ' ' := by
  have hWS : W ≤ ((24 * W + 31) / 32) * 4 := by omega
  have hWH : W * H ≤ 2147483647 := le_trans (Nat.mul_le_mul_right H hWS) hsize
  refine ⟨load_blackBitmap u img0 W H hW hrow hsize, ?_, ?_⟩
  · unfold printToConsole
    rw [Int.toNat_ofNat, printRows_eq ⟨W, H, List.replicate (W * H) ⟨0, 0, 0, 255⟩⟩ W H rfl
      (List.length_replicate _ _) (by omega) H 0 [] (by omega), List.nil_append,
      ← List.range_eq_range']
    congr 1
    apply List.flatMap_congr
    intro y hy
    rw [List.mem_range] at hy
    congr 1
    rw [List.eq_replicate_iff]
    refine ⟨by simp, ?_⟩
    intro c hc
    rw [List.mem_map] at hc
    obtain ⟨x, hx, rfl⟩ := hc
    rw [List.mem_range] at hx
    have hidx : y * W + x < W * H := by
      have h1 : (y + 1) * W ≤ H * W := Nat.mul_le_mul_right W (by omega)
      rw [Nat.succ_mul, Nat.mul_comm H W] at h1
      omega
    have hg : (List.replicate (W * H) (⟨0, 0, 0, 255⟩ : Pixel)).getD (y * W + x) ⟨0, 0, 0, 0⟩
        = ⟨0, 0, 0, 255⟩ := by
      rw [List.getD_eq_getElem _ _ (by rw [List.length_replicate]; exact hidx)]
      exact List.getElem_replicate _ _
    simp only []
    rw [hg]
    rfl
  · obtain ⟨px, d1, d2, d3⟩ := drawX_pixels fuel 0 0
      ⟨W, H, List.replicate (W * H) ⟨0, 0, 0, 255⟩⟩ hfuel
      (by simp only [List.length_replicate]; push_cast; rfl)
      (by show (W : Int) * (H : Int) ≤ 2147483647; exact_mod_cast hWH)
    simp only [] at d1 d2 d3
    have hon : onCross 0 0 0 0 := ⟨0, by omega, by simp, Or.inl (by simp)⟩
    have h0 := (d3 0 0 (le_refl 0) (by omega) (le_refl 0) (by omega)).1 hon
    have e0 : ((0 : Int) * (W : Int) + 0).toNat = 0 := by simp
    rw [e0] at h0
    rw [List.length_replicate] at d2
    have hprint : printToConsole ⟨W, H, px⟩
        = .ok ((List.range H).flatMap (fun y =>
            (List.range W).map (fun x => glyph (px.getD (y * W + x) ⟨0, 0, 0, 0⟩)) ++ ['\n'])) := by
      unfold printToConsole
      rw [Int.toNat_ofNat, printRows_eq ⟨W, H, px⟩ W H rfl d2 (by omega) H 0 [] (by omega),
        List.nil_append, ← List.range_eq_range']
    refine ⟨_, _, _, d1, h0, hprint, ?_⟩
    rw [render_head W H hW hH (fun y x => glyph (px.getD (y * W + x) ⟨0, 0, 0, 0⟩)) '\n']
    simp only [Nat.zero_mul, Nat.add_zero]
    have hg : px.getD 0 ⟨0, 0, 0, 0⟩ = ⟨255, 255, 255, 0⟩ := by
      rw [List.getD_eq_getElem?_getD, h0]; rfl
    rw [hg]
    rfl

/-- Witness for C15: the 4 by 4 all-black bitmap of the specification. -/
theorem all_black_example_witness :
    load zeroUninit (some (blackBitmap 4 4)) ⟨0, 0, []⟩
        = .ok (true, { width := (4 : Nat), height := (4 : Nat),
                       pixels := List.replicate (4 * 4) ⟨0, 0, 0, 255⟩ })
      ∧ printToConsole ⟨(4 : Nat), (4 : Nat), List.replicate (4 * 4) ⟨0, 0, 0, 255⟩⟩
        = .ok ((List.range 4).flatMap (fun _ => List.replicate 4 '#' ++ ['\n']))
      ∧ ∃ img1 visited out,
          drawX 11 0 0 ⟨(4 : Nat), (4 : Nat), List.replicate (4 * 4) ⟨0, 0, 0, 255⟩⟩
              = .ok (img1, visited)
            ∧ img1.pixels[0]? = some ⟨255, 255, 255, 0⟩
            ∧ printToConsole img1 = .ok out
            ∧ out[0]? = some ' ' :=
  all_black_example zeroUninit ⟨0, 0, []⟩ 4 4 11 (by decide) (by decide) (by decide)
    (by decide) (by decide)

/-- C16 (`save` drops alpha).  Two buffers with the same width, height and the same red,
green and blue at every index, whatever their alpha values, make `save` produce the same
result byte for byte; for a `W` by `H` buffer with `pixels.length = W * H` that output
exists and its bit count field is 24.  A buffer carries no record of the depth of the file
it was loaded from, so this covers buffers loaded from 24-bit and from 32-bit files. -/
theorem save_drops_alpha (img1 img2 : BMPImage) (W H : Nat)
    (hw1 : img1.width = (W : Int)) (hh1 : img1.height = (H : Int))
    (hw : img2.width = img1.width) (hh : img2.height = img1.height)
    (hpx1 : img1.pixels.length = W * H) (hpx2 : img2.pixels.length = W * H)
    (hc : ∀ (i : Nat) (p q : Pixel), img1.pixels[i]? = some p → img2.pixels[i]? = some q →
      p.r = q.r ∧ p.g = q.g ∧ p.b = q.b)
    (hWr : W ≤ 2147483647) (hHr : H ≤ 2147483647) :
    (∀ canOpen, save canOpen img1 = save canOpen img2)
      ∧ ∃ out, save true img1 = .ok (true, some out) ∧ save true img2 = .ok (true, some out)
          ∧ (DIBHeader.ofBytes (fileMem out 14)).biBitCount = 24 := by
  have hsb := saveBytes_congr img1 img2 hw hh (by omega) hc
  have hsv : ∀ canOpen, save canOpen img1 = save canOpen img2 := by
    intro c; unfold save; rw [hsb]
  obtain ⟨out, s1, _, s3, _, _⟩ := saveBytes_good img1 W H hw1 hh1 hpx1 hWr hHr
  obtain ⟨_, _, f3, _, _⟩ := savedHeader_fields out W H hWr hHr s3
  have h1 : save true img1 = .ok (true, some out) := by simp [save, s1]
  exact ⟨hsv, out, h1, by rw [← hsv]; exact h1, f3⟩

/-- Witness for C16: two 1 by 2 buffers that differ in alpha only. -/
theorem save_drops_alpha_witness :
    (∀ canOpen, save canOpen ⟨1, 2, [⟨1, 2, 3, 4⟩, ⟨5, 6, 7, 8⟩]⟩
        = save canOpen ⟨1, 2, [⟨1, 2, 3, 255⟩, ⟨5, 6, 7, 0⟩]⟩)
      ∧ ∃ out, save true ⟨1, 2, [⟨1, 2, 3, 4⟩, ⟨5, 6, 7, 8⟩]⟩ = .ok (true, some out)
          ∧ save true ⟨1, 2, [⟨1, 2, 3, 255⟩, ⟨5, 6, 7, 0⟩]⟩ = .ok (true, some out)
          ∧ (DIBHeader.ofBytes (fileMem out 14)).biBitCount = 24 :=
  save_drops_alpha ⟨1, 2, [⟨1, 2, 3, 4⟩, ⟨5, 6, 7, 8⟩]⟩ ⟨1, 2, [⟨1, 2, 3, 255⟩, ⟨5, 6, 7, 0⟩]⟩
    1 2 rfl rfl rfl rfl rfl rfl
    (by
      intro i p q h1 h2
      match i, h1, h2 with
      | 0, h1, h2 => cases h1; cases h2; decide
      | 1, h1, h2 => cases h1; cases h2; decide
      | _ + 2, h1, _ => cases h1)
    (by decide) (by decide)

/-- C18 (acceptance condition of `load`).  For every openable file of at least 54 bytes whose
declared width `W` and height `H` are non-negative with `W * H` in the 32-bit range, `load`
returns `true` if and only if the signature is `0x4D42` and the bit count is 24 or 32.  On
acceptance the image has width `W`, height `H` and `W * H` pixels, so none when `W` or `H` is
zero.  Neither the length of the pixel data nor the declared pixel data offset is a
premise: whatever they are, an accepted header makes `load` succeed. -/
theorem load_acceptance (u : Uninit) (data : List Byte) (img0 : BMPImage) (W H : Nat)
    (h54 : 54 ≤ data.length)
    (hw : (DIBHeader.ofBytes (fileMem data 14)).biWidth = (W : Int))
    (hh : (DIBHeader.ofBytes (fileMem data 14)).biHeight = (H : Int))
    (hWH : W * H ≤ 2147483647) :
    ((∃ img, load u (some data) img0 = .ok (true, img))
        ↔ ((BMPHeader.ofBytes (fileMem data 0)).bfType = 0x4D42
          ∧ ((DIBHeader.ofBytes (fileMem data 14)).biBitCount = 24
            ∨ (DIBHeader.ofBytes (fileMem data 14)).biBitCount = 32)))
      ∧ (((BMPHeader.ofBytes (fileMem data 0)).bfType = 0x4D42
          ∧ ((DIBHeader.ofBytes (fileMem data 14)).biBitCount = 24
            ∨ (DIBHeader.ofBytes (fileMem data 14)).biBitCount = 32)) →
          ∃ px, load u (some data) img0 = .ok (true, { width := W, height := H, pixels := px })
            ∧ px.length = W * H ∧ ((W = 0 ∨ H = 0) → px = []))
      ∧ (¬ ((BMPHeader.ofBytes (fileMem data 0)).bfType = 0x4D42
          ∧ ((DIBHeader.ofBytes (fileMem data 14)).biBitCount = 24
            ∨ (DIBHeader.ofBytes (fileMem data 14)).biBitCount = 32)) →
          load u (some data) img0 = .ok (false, img0)) := by
  have hacc : ((BMPHeader.ofBytes (fileMem data 0)).bfType = 0x4D42
      ∧ ((DIBHeader.ofBytes (fileMem data 14)).biBitCount = 24
        ∨ (DIBHeader.ofBytes (fileMem data 14)).biBitCount = 32)) →
      ∃ px, load u (some data) img0 = .ok (true, { width := W, height := H, pixels := px })
        ∧ px.length = W * H ∧ ((W = 0 ∨ H = 0) → px = []) := by
    intro hc
    obtain ⟨px, h1, h2⟩ := load_accepts u data img0 W H h54 hc.1 hc.2 hw hh hWH
    refine ⟨px, h1, h2, ?_⟩
    intro hz
    apply List.eq_nil_of_length_eq_zero
    rcases hz with hz | hz <;> simp [h2, hz]
  refine ⟨⟨?_, ?_⟩, hacc, load_rejects u data img0 h54⟩
  · rintro ⟨img, hl⟩
    by_contra hc
    rw [load_rejects u data img0 h54 hc] at hl
    simp at hl
  · intro hc
    obtain ⟨px, h1, _⟩ := hacc hc
    exact ⟨_, h1⟩

/-- Witness for C18: a file that ends right after its headers and declares the pixel data
offset 1000 is accepted as a 2 by 2 image. -/
theorem load_acceptance_witness :
    ((∃ img, load zeroUninit (some headerOnlyFile) ⟨0, 0, []⟩ = .ok (true, img))
        ↔ ((BMPHeader.ofBytes (fileMem headerOnlyFile 0)).bfType = 0x4D42
          ∧ ((DIBHeader.ofBytes (fileMem headerOnlyFile 14)).biBitCount = 24
            ∨ (DIBHeader.ofBytes (fileMem headerOnlyFile 14)).biBitCount = 32)))
      ∧ (((BMPHeader.ofBytes (fileMem headerOnlyFile 0)).bfType = 0x4D42
          ∧ ((DIBHeader.ofBytes (fileMem headerOnlyFile 14)).biBitCount = 24
            ∨ (DIBHeader.ofBytes (fileMem headerOnlyFile 14)).biBitCount = 32)) →
          ∃ px, load zeroUninit (some headerOnlyFile) ⟨0, 0, []⟩
              = .ok (true, { width := (2 : Nat), height := (2 : Nat), pixels := px })
            ∧ px.length = 2 * 2 ∧ (((2 : Nat) = 0 ∨ (2 : Nat) = 0) → px = []))
      ∧ (¬ ((BMPHeader.ofBytes (fileMem headerOnlyFile 0)).bfType = 0x4D42
          ∧ ((DIBHeader.ofBytes (fileMem headerOnlyFile 14)).biBitCount = 24
            ∨ (DIBHeader.ofBytes (fileMem headerOnlyFile 14)).biBitCount = 32)) →
          load zeroUninit (some headerOnlyFile) ⟨0, 0, []⟩ = .ok (false, ⟨0, 0, []⟩)) :=
  load_acceptance zeroUninit headerOnlyFile ⟨0, 0, []⟩ 2 2 (by decide) (by decide) (by decide)
    (by decide)

/-- C19 (`drawX` preserves the black/white content policy).  For a `W` by `H` buffer with
`pixels.length = W * H` (`W * H`, `x + 10`, `y + 10` in the 32-bit range) in which
`isValidColor` holds for every pixel, and every origin `(x, y)`, `drawX` returns a buffer in
which `isValidColor` holds for every pixel, and `printToConsole` on it writes the glyph
grid without any `?`; a glyph is `?` exactly when `isValidColor` is false for its pixel. -/
theorem drawX_preserves_valid (fuel : Nat) (x y : Int) (img : BMPImage) (W H : Nat)
    (hfuel : 11 ≤ fuel) (hw : img.width = (W : Int)) (hh : img.height = (H : Int))
    (hpx : img.pixels.length = W * H) (hWH : W * H ≤ 2147483647)
    (_hx : -2147483648 ≤ x ∧ x + 10 ≤ 2147483647) (_hy : -2147483648 ≤ y ∧ y + 10 ≤ 2147483647)
    (hvalid : ∀ p ∈ img.pixels, isValidColor p = true) :
    (∃ img1 visited, drawX fuel x y img = .ok (img1, visited)
        ∧ (∀ p ∈ img1.pixels, isValidColor p = true)
        ∧ printToConsole img1
            = .ok ((List.range H).flatMap (fun r =>
                (List.range W).map (fun c => glyph (img1.pixels.getD (r * W + c) ⟨0, 0, 0, 0⟩))
                  ++ ['\n']))
        ∧ '?' ∉ (List.range H).flatMap (fun r =>
                (List.range W).map (fun c => glyph (img1.pixels.getD (r * W + c) ⟨0, 0, 0, 0⟩))
                  ++ ['\n']))
      ∧ ∀ p : Pixel, glyph p = '?' ↔ isValidColor p = false := by
  refine ⟨?_, glyph_question_iff⟩
  have hlen : (img.pixels.length : Int) = img.width * img.height := by
    rw [hw, hh, hpx]; push_cast; rfl
  have hb : img.width * img.height ≤ 2147483647 := by
    rw [hw, hh]; exact_mod_cast hWH
  have hd := drawX_eq fuel x y img hfuel hlen hb
  have hv : ∀ p ∈ (diagPoints (-1) 10 x (y + 10)).foldl (plotPoint img.width img.height)
      ((diagPoints 1 10 x y).foldl (plotPoint img.width img.height) img.pixels),
      isValidColor p = true :=
    foldl_plotPoint_valid _ _ _ _ (foldl_plotPoint_valid _ _ _ _ hvalid)
  have hl : ((diagPoints (-1) 10 x (y + 10)).foldl (plotPoint img.width img.height)
      ((diagPoints 1 10 x y).foldl (plotPoint img.width img.height) img.pixels)).length
      = W * H := by
    rw [foldl_plotPoint_length, foldl_plotPoint_length, hpx]
  generalize (diagPoints (-1) 10 x (y + 10)).foldl (plotPoint img.width img.height)
      ((diagPoints 1 10 x y).foldl (plotPoint img.width img.height) img.pixels) = px1
    at hd hv hl
  refine ⟨_, _, hd, hv, ?_, render_no_question W H px1 hl hv⟩
  have e : (BMPImage.mk img.width img.height px1).height.toNat = H := by
    show img.height.toNat = H
    rw [hh, Int.toNat_ofNat]
  have hp := printRows_eq ⟨img.width, img.height, px1⟩ W H hw hl (by omega) H 0 [] (by omega)
  rw [printToConsole, e, hp, List.nil_append, ← List.range_eq_range']

/-- Witness for C19: a 2 by 2 black and white buffer and the origin `(-9, -9)`. -/
theorem drawX_preserves_valid_witness :
    (∃ img1 visited,
        drawX 11 (-9) (-9)
            ⟨2, 2, [⟨0, 0, 0, 255⟩, ⟨255, 255, 255, 255⟩, ⟨0, 0, 0, 255⟩, ⟨0, 0, 0, 255⟩]⟩
          = .ok (img1, visited)
        ∧ (∀ p ∈ img1.pixels, isValidColor p = true)
        ∧ printToConsole img1
            = .ok ((List.range 2).flatMap (fun r =>
                (List.range 2).map (fun c => glyph (img1.pixels.getD (r * 2 + c) ⟨0, 0, 0, 0⟩))
                  ++ ['\n']))
        ∧ '?' ∉ (List.range 2).flatMap (fun r =>
                (List.range 2).map (fun c => glyph (img1.pixels.getD (r * 2 + c) ⟨0, 0, 0, 0⟩))
                  ++ ['\n']))
      ∧ ∀ p : Pixel, glyph p = '?' ↔ isValidColor p = false :=
  drawX_preserves_valid 11 (-9) (-9)
    ⟨2, 2, [⟨0, 0, 0, 255⟩, ⟨255, 255, 255, 255⟩, ⟨0, 0, 0, 255⟩, ⟨0, 0, 0, 255⟩]⟩ 2 2
    (by decide) rfl rfl rfl (by decide) (by decide) (by decide) (by decide)

end BMP
